import Mathlib

/-!
# Verification of the BcmHost / BcmHostTable resource manager

Shallow embedding of `fboss/agent/hw/bcm/BcmHost.cpp`: the reference-counted
registries of host entries, ECMP hosts and egress objects, warm-boot
reconciliation, the port reverse index and link-state fan-out.

Modelling conventions:
* Registries (`std::unordered_map`) are association lists `List (K × V)`
  with a no-duplicate-keys reading; `lookupA` finds the first binding.
* Machine ids (`opennsl_if_t`, `opennsl_vrf_t`, `opennsl_port_t`) are `Nat`.
  `BcmEgressBase::INVALID` is the distinguished value `0`; hardware-assigned
  ids are drawn from an allocator `nextId` kept `≥ 1`.
* `folly::IPAddress` is a family bit plus an opaque payload.
* Hardware calls are modelled as counters (`hwHostAdds`, `hwHostDels`) plus
  explicit success/failure oracles where a claim depends on a failure path.
* Process aborts (`CHECK` / `LOG(FATAL)`) and C++ exceptions (`bcmCheckError`)
  are distinguished: an abort (`Err.fatal`) terminates the process so no
  rollback (`SCOPE_FAIL`) runs, while a thrown error unwinds scope guards.
-/

set_option autoImplicit false

namespace BcmSpec

universe u v

variable {K : Type u} {V : Type v}

/-- First-match lookup in an association list (models `std::unordered_map::find`). -/
def lookupA [DecidableEq K] : List (K × V) → K → Option V
  | [], _ => none
  | p :: rest, k => if k = p.1 then some p.2 else lookupA rest k

/-- In-place update of the binding for `k` (models mutation through an iterator). -/
def updA [DecidableEq K] : List (K × V) → K → (V → V) → List (K × V)
  | [], _, _ => []
  | p :: rest, k, f => if p.1 = k then (p.1, f p.2) :: updA rest k f else p :: updA rest k f

/-- Remove the binding for `k` (models `map->erase(iter)`; under the
no-duplicate-keys invariant removing every match is removing the one match). -/
def eraseA [DecidableEq K] : List (K × V) → K → List (K × V)
  | [], _ => []
  | p :: rest, k => if p.1 = k then eraseA rest k else p :: eraseA rest k

/-- Keys of an association list. -/
def keysA : List (K × V) → List K := List.map Prod.fst

@[simp] theorem lookupA_nil [DecidableEq K] (k : K) :
    lookupA ([] : List (K × V)) k = none := rfl

@[simp] theorem lookupA_cons [DecidableEq K] (p : K × V) (rest : List (K × V)) (k : K) :
    lookupA (p :: rest) k = if k = p.1 then some p.2 else lookupA rest k := rfl

theorem lookupA_updA_self [DecidableEq K] (l : List (K × V)) (k : K) (f : V → V) :
    lookupA (updA l k f) k = (lookupA l k).map f := by
  induction l with
  | nil => rfl
  | cons p rest ih =>
    by_cases h : p.1 = k
    · subst h
      simp [updA, lookupA]
    · have h' : ¬ k = p.1 := fun hk => h hk.symm
      simp [updA, lookupA, h, h', ih]

theorem lookupA_updA_ne [DecidableEq K] (l : List (K × V)) (k k' : K) (f : V → V)
    (h : k' ≠ k) : lookupA (updA l k f) k' = lookupA l k' := by
  induction l with
  | nil => rfl
  | cons p rest ih =>
    by_cases hp : p.1 = k
    · subst hp
      simp [updA, lookupA, h, ih]
    · by_cases hk : k' = p.1 <;> simp [updA, lookupA, hp, hk, ih]

theorem lookupA_eraseA_self [DecidableEq K] (l : List (K × V)) (k : K) :
    lookupA (eraseA l k) k = none := by
  induction l with
  | nil => rfl
  | cons p rest ih =>
    by_cases hp : p.1 = k
    · simp [eraseA, hp, ih]
    · have h' : ¬ k = p.1 := fun hk => hp hk.symm
      simp [eraseA, hp, lookupA, h', ih]

theorem lookupA_eraseA_ne [DecidableEq K] (l : List (K × V)) (k k' : K)
    (h : k' ≠ k) : lookupA (eraseA l k) k' = lookupA l k' := by
  induction l with
  | nil => rfl
  | cons p rest ih =>
    by_cases hp : p.1 = k
    · subst hp
      simp [eraseA, lookupA, h, ih]
    · by_cases hk : k' = p.1 <;> simp [eraseA, hp, lookupA, hk, ih]

theorem updA_not_mem [DecidableEq K] (l : List (K × V)) (k : K) (f : V → V)
    (h : lookupA l k = none) : updA l k f = l := by
  induction l with
  | nil => rfl
  | cons p rest ih =>
    simp only [lookupA] at h
    by_cases hp : k = p.1
    · simp [hp] at h
    · have hp' : ¬ p.1 = k := fun hk => hp hk.symm
      simp [hp] at h
      simp [updA, hp', ih h]

theorem eraseA_not_mem [DecidableEq K] (l : List (K × V)) (k : K)
    (h : lookupA l k = none) : eraseA l k = l := by
  induction l with
  | nil => rfl
  | cons p rest ih =>
    simp only [lookupA] at h
    by_cases hp : k = p.1
    · simp [hp] at h
    · have hp' : ¬ p.1 = k := fun hk => hp hk.symm
      simp [hp] at h
      simp [eraseA, hp', ih h]

/-! ## Data model -/

/-- `folly::IPAddress`: address family plus opaque payload bits. -/
structure Addr where
  v6 : Bool
  bits : Nat
  deriving DecidableEq, Repr

/-- Host-entry key: `(opennsl_vrf_t, IPAddress)`. -/
abbrev HKey := Nat × Addr

/-- ECMP-host key: `(opennsl_vrf_t, RouteForwardNexthops)`, a next-hop list of
`(interface id, next-hop address)` pairs. -/
abbrev EKey := Nat × List (Nat × Addr)

/-- `BcmEgressBase::INVALID`: the sentinel egress id.  Hardware-assigned ids are
taken from `Sw.nextId`, which the well-formedness predicate keeps `≥ 1`. -/
def INVALID : Nat := 0

/-- `OPENNSL_L3_IP6` flag bit (value abstracted: a fixed power of two distinct
from the multipath bit, which is all the code relies on). -/
def L3_IP6 : Nat := 1

/-- `OPENNSL_L3_MULTIPATH` flag bit (value abstracted, see `L3_IP6`). -/
def L3_MULTIPATH : Nat := 2

/-- The mutable fields of a `BcmHost` object. -/
structure BcmHostM where
  vrf : Nat
  addr : Addr
  egressId : Nat
  added : Bool
  port : Nat
  deriving DecidableEq, Repr

/-- The mutable fields of a `BcmEcmpHost` object. -/
structure EcmpM where
  vrf : Nat
  fwd : List (Nat × Addr)
  egressId : Nat
  ecmpEgressId : Nat
  deriving DecidableEq, Repr

/-- An egress object: `BcmEgress` (simple) or `BcmEcmpEgress` (group).
Modelled from the spec: a group holds an ordered list of member egress ids,
each flagged reachable or unreachable (`BcmEgress.cpp` is not in the sources;
§3 of the spec describes groups as ordered member lists with "unreachable"
placeholders). -/
inductive EgressObjM where
  | simple
  | ecmp (paths : List (Nat × Bool))
  deriving DecidableEq, Repr

/-- `opennsl_l3_host_t`, restricted to the fields the code reads or compares. -/
structure L3HostM where
  flags : Nat
  vrf : Nat
  addr : Addr
  intf : Nat
  deriving DecidableEq, Repr

/-- Error outcomes: a `fatal` abort (`CHECK` / `LOG(FATAL)`, process dies, no
scope guards run) versus a `thrown` C++ exception (`bcmCheckError`), which
unwinds `SCOPE_FAIL` guards. -/
inductive Err where
  | fatal
  | thrown
  deriving DecidableEq, Repr

/-- The whole mutable world: the `BcmHostTable` registries, the port reverse
index, the warm boot cache view, the id allocator and hardware-call counters. -/
structure Sw where
  hosts : List (HKey × BcmHostM × Nat)
  ecmpHosts : List (EKey × EcmpM × Nat)
  egressMap : List (Nat × EgressObjM × Nat)
  port2EgressIds : List (Nat × Finset Nat)
  warmHosts : List (HKey × L3HostM)
  warmClaimed : HKey → Nat
  nextId : Nat
  hwHostAdds : Nat
  hwHostDels : Nat

/-- Well-formedness: the allocator never collides with `INVALID` and dominates
every egress id already registered. -/
def wfSw (sw : Sw) : Prop :=
  1 ≤ sw.nextId ∧ ∀ p ∈ sw.egressMap, p.1 < sw.nextId

/-! ## Host Table: egress registry and port index -/

/-- `BcmHostTable::insertBcmEgress`: register a freshly created egress object at
count 1; a duplicate id is a fatal `CHECK` failure. -/
def insertBcmEgress (sw : Sw) (id : Nat) (obj : EgressObjM) : Except Err Sw :=
  match lookupA sw.egressMap id with
  | some _ => .error .fatal
  | none => .ok {sw with egressMap := (id, obj, 1) :: sw.egressMap}

/-- `BcmHostTable::incEgressReference`: the id must be present (`CHECK`), then
its reference count is incremented. -/
def incEgressReference (sw : Sw) (egressId : Nat) : Except Err Sw :=
  match lookupA sw.egressMap egressId with
  | none => .error .fatal
  | some _ => .ok {sw with egressMap := updA sw.egressMap egressId (fun oc => (oc.1, oc.2 + 1))}

/-- `BcmHostTable::derefEgress`: the id must be present with positive count
(`CHECK`s); decrement, erasing the entry when the count reaches zero. -/
def derefEgress (sw : Sw) (egressId : Nat) : Except Err Sw :=
  match lookupA sw.egressMap egressId with
  | none => .error .fatal
  | some (_, c) =>
    if c = 0 then .error .fatal
    else if c = 1 then .ok {sw with egressMap := eraseA sw.egressMap egressId}
    else .ok {sw with egressMap := updA sw.egressMap egressId (fun oc => (oc.1, oc.2 - 1))}

/-- `operator[]` on `port2EgressIds_`: default-construct an empty set under the
key when absent. -/
def getOrCreatePort (m : List (Nat × Finset Nat)) (p : Nat) : List (Nat × Finset Nat) :=
  match lookupA m p with
  | none => (p, ∅) :: m
  | some _ => m

/-- `BcmHostTable::updatePortEgressMapping`: drop `egressId` from the old
port's set and add it to the new port's set, skipping port 0 on either side. -/
def updatePortEgressMapping (sw : Sw) (egressId oldPort newPort : Nat) : Sw :=
  let m := sw.port2EgressIds
  let m := if oldPort ≠ 0 then updA (getOrCreatePort m oldPort) oldPort (fun s => s.erase egressId) else m
  let m := if newPort ≠ 0 then updA (getOrCreatePort m newPort) newPort (fun s => insert egressId s) else m
  {sw with port2EgressIds := m}

/-- `BcmHostTable::getEgressIdsForPort`: the indexed set, or the static empty
set when the port has no entry. -/
def getEgressIdsForPort (sw : Sw) (port : Nat) : Finset Nat :=
  (lookupA sw.port2EgressIds port).getD ∅

/-! ## BcmHost: construction, programming, destruction -/

/-- `RouteForwardAction` as used by `BcmHost::program`. -/
inductive RouteForwardAction where
  | drop
  | toCPU
  deriving DecidableEq, Repr

/-- `BcmHost::BcmHost`: record the key and the referenced egress id; when the
id is not `INVALID`, take a reference on it (fatal if it is unregistered). -/
def bcmHostNew (sw : Sw) (vrf : Nat) (addr : Addr) (referencedEgress : Nat) :
    Except Err (BcmHostM × Sw) :=
  let h : BcmHostM := { vrf := vrf, addr := addr, egressId := referencedEgress,
                        added := false, port := 0 }
  if referencedEgress ≠ INVALID then
    match incEgressReference sw referencedEgress with
    | .error e => .error e
    | .ok sw1 => .ok (h, sw1)
  else .ok (h, sw)

/-- `BcmHost::initHostCommon`: build the `opennsl_l3_host_t` for this entry
(address family flag, vrf, egress interface). -/
def initHostCommon (h : BcmHostM) : L3HostM :=
  { flags := if h.addr.v6 then L3_IP6 else 0,
    vrf := h.vrf, addr := h.addr, intf := h.egressId }

/-- The `OPENNSL_L3_MULTIPATH` flag applied in `addBcmHost` when requested. -/
def withMultipath (l : L3HostM) (isMultipath : Bool) : L3HostM :=
  if isMultipath then {l with flags := l.flags ||| L3_MULTIPATH} else l

/-- The `equivalent` lambda in `BcmHost::addBcmHost`: compare only the IP6 and
MULTIPATH flag bits, the vrf and the egress/interface reference. -/
def equivalentHosts (newHost existingHost : L3HostM) : Bool :=
  (existingHost.flags &&& L3_IP6 = newHost.flags &&& L3_IP6) &&
  (existingHost.flags &&& L3_MULTIPATH = newHost.flags &&& L3_MULTIPATH) &&
  (existingHost.vrf = newHost.vrf) && (existingHost.intf = newHost.intf)

/-- Result of a `BcmHost` mutation: success, a thrown `BcmError` (carrying the
host object and world as the exception unwinds — the host is owned by the
table, so its partial mutation stays observable), or a fatal process abort. -/
inductive ProgRes where
  | ok (h : BcmHostM) (sw : Sw)
  | thrown (h : BcmHostM) (sw : Sw)
  | fatal

/-- `BcmHost::addBcmHost`: no-op once `added_`; otherwise consult the warm boot
cache for `(vrf, addr)`.  A discovered entry that matches on the compared
fields is acknowledged (`warmBootCache->programmed`) with no hardware write; a
mismatch is `LOG(FATAL)`.  On a cache miss, issue `opennsl_l3_host_add`
(`hwAddOk` is the hardware outcome; failure throws via `bcmCheckError`). -/
def addBcmHost (sw : Sw) (h : BcmHostM) (isMultipath : Bool) (hwAddOk : Bool) : ProgRes :=
  if h.added then .ok h sw
  else
    let host := withMultipath (initHostCommon h) isMultipath
    match lookupA sw.warmHosts (h.vrf, h.addr) with
    | some existingHost =>
      if equivalentHosts host existingHost then
        .ok {h with added := true}
          {sw with warmClaimed := fun k =>
            if k = (h.vrf, h.addr) then sw.warmClaimed k + 1 else sw.warmClaimed k}
      else .fatal
    | none =>
      if hwAddOk then .ok {h with added := true} {sw with hwHostAdds := sw.hwHostAdds + 1}
      else .thrown h sw

/-- `BcmHost::program`: ensure an egress object exists (creating one when the
stored id is `INVALID`; a stored id must resolve to a simple egress, else the
`dynamic_cast`/`CHECK` aborts), program it (`hwEgrOk` is the hardware outcome
of the egress write; the egress object's rewrite state is abstracted), issue
the host add once via `addBcmHost`, then update the port reverse index and the
stored port.  The `mac`/`action` arguments select the egress programming mode;
their effect lives in the abstracted egress state. -/
def bcmHostProgram (sw : Sw) (h : BcmHostM) (intf : Nat) (mac : Option Nat)
    (port : Nat) (action : RouteForwardAction) (hwEgrOk hwAddOk : Bool) : ProgRes :=
  if h.egressId = INVALID then
    -- createdEgress = make_unique<BcmEgress>; egress->program... assigns the id
    if hwEgrOk then
      let eid := sw.nextId
      let sw1 := {sw with nextId := sw.nextId + 1}
      match insertBcmEgress sw1 eid .simple with
      | .error _ => .fatal
      | .ok sw2 =>
        let h1 := {h with egressId := eid}
        match (if h1.added then ProgRes.ok h1 sw2 else addBcmHost sw2 h1 false hwAddOk) with
        | .fatal => .fatal
        | .thrown h2 sw3 => .thrown h2 sw3
        | .ok h2 sw3 =>
          let sw4 := updatePortEgressMapping sw3 eid h2.port port
          .ok {h2 with port := port} sw4
    else .thrown h sw
  else
    match lookupA sw.egressMap h.egressId with
    | some (.simple, _) =>
      if hwEgrOk then
        match (if h.added then ProgRes.ok h sw else addBcmHost sw h false hwAddOk) with
        | .fatal => .fatal
        | .thrown h2 sw3 => .thrown h2 sw3
        | .ok h2 sw3 =>
          let sw4 := updatePortEgressMapping sw3 h.egressId h2.port port
          .ok {h2 with port := port} sw4
      else .thrown h sw
    | _ => .fatal  -- CHECK(egress): missing id or not a BcmEgress

/-- `BcmHost::programToCPU(intf)`.  Modelled from the spec: the header-only
wrapper is not in the sources; §4.2 programs an unresolved member "to punt to
CPU", i.e. `program(intf, nullptr, 0, TO_CPU)` (port 0 = no port, per the
comment above `updatePortEgressMapping` in `program`). -/
def programToCPU (sw : Sw) (h : BcmHostM) (intf : Nat) (hwEgrOk hwAddOk : Bool) : ProgRes :=
  bcmHostProgram sw h intf none 0 .toCPU hwEgrOk hwAddOk

/-- `BcmHost::~BcmHost`: nothing when never added; otherwise delete the
hardware host entry (failure is `bcmLogFatal`, modelled as success) and
release the reference on the egress object. -/
def bcmHostDtor (sw : Sw) (h : BcmHostM) : Except Err Sw :=
  if h.added then
    match derefEgress {sw with hwHostDels := sw.hwHostDels + 1} h.egressId with
    | .error e => .error e
    | .ok sw1 => .ok sw1
  else .ok sw

/-! ## Host Table: reference-counted acquire / dereference

`incRefOrCreateBcmHost` and `derefBcmHost` are templates in the source shared
by the host and ECMP-host registries; `incRefOrCreateT` / `derefT` model the
template generically (the would-be new object is passed as a value; the
`emplace` of a count-1 placeholder followed by in-place construction is
modelled as construct-then-insert, equivalent because nothing reads the
registry between the two steps and the `SCOPE_FAIL` erases the placeholder
when construction throws). -/

/-- `BcmHostTable::incRefOrCreateBcmHost` (template): share and bump the count
when the key is present, otherwise insert the new object at count 1. -/
def incRefOrCreateT [DecidableEq K] (m : List (K × V × Nat)) (k : K) (mk : V) :
    V × List (K × V × Nat) :=
  match lookupA m k with
  | some (v, _) => (v, updA m k (fun vc => (vc.1, vc.2 + 1)))
  | none => (mk, (k, mk, 1) :: m)

/-- `BcmHostTable::derefBcmHost` (template): a missing key returns null with no
change; a present key has its count checked positive (`CHECK_GT`, fatal at 0 —
`none` result) and decremented, erasing the entry at zero. -/
def derefT [DecidableEq K] (m : List (K × V × Nat)) (k : K) :
    Option (List (K × V × Nat) × Option V) :=
  match lookupA m k with
  | none => some (m, none)
  | some (v, c) =>
    if c = 0 then none
    else if c = 1 then some (eraseA m k, none)
    else some (updA m k (fun vc => (vc.1, vc.2 - 1)), some v)

/-- `incRefOrCreateBcmHost(vrf, addr)`: the host-registry instantiation; the
member constructor takes no referenced egress, so it cannot fail. -/
def incRefOrCreateBcmHost (sw : Sw) (vrf : Nat) (addr : Addr) : BcmHostM × Sw :=
  let hm := incRefOrCreateT sw.hosts (vrf, addr)
    { vrf := vrf, addr := addr, egressId := INVALID, added := false, port := 0 }
  (hm.1, {sw with hosts := hm.2})

/-- `BcmHostTable::derefBcmHost(vrf, addr)`: the host-registry instantiation;
erasing the entry destroys the owned `BcmHost`, running `~BcmHost`. -/
def derefBcmHost (sw : Sw) (k : HKey) : Except Err (Sw × Option BcmHostM) :=
  match lookupA sw.hosts k with
  | none => .ok (sw, none)
  | some (h, c) =>
    if c = 0 then .error .fatal
    else if c = 1 then
      match bcmHostDtor {sw with hosts := eraseA sw.hosts k} h with
      | .error e => .error e
      | .ok sw1 => .ok (sw1, none)
    else .ok ({sw with hosts := updA sw.hosts k (fun hc => (hc.1, hc.2 - 1))}, some h)

/-- The member-release loop of `BcmEcmpHost::~BcmEcmpHost`. -/
def derefMemberHosts (sw : Sw) (vrf : Nat) : List (Nat × Addr) → Except Err Sw
  | [] => .ok sw
  | nh :: rest =>
    match derefBcmHost sw (vrf, nh.2) with
    | .error e => .error e
    | .ok (sw1, _) => derefMemberHosts sw1 vrf rest

/-- `BcmEcmpHost::~BcmEcmpHost`: release the ECMP egress reference first (it
holds references to the member egress entries), then release one reference on
each member host. -/
def bcmEcmpHostDtor (sw : Sw) (e : EcmpM) : Except Err Sw :=
  match (if e.ecmpEgressId ≠ INVALID then derefEgress sw e.ecmpEgressId else .ok sw) with
  | .error err => .error err
  | .ok sw1 => derefMemberHosts sw1 e.vrf e.fwd

/-- `BcmHostTable::derefBcmEcmpHost(vrf, fwd)`: the ECMP-registry
instantiation; erasing the entry runs `~BcmEcmpHost`. -/
def derefBcmEcmpHost (sw : Sw) (k : EKey) : Except Err (Sw × Option EcmpM) :=
  match lookupA sw.ecmpHosts k with
  | none => .ok (sw, none)
  | some (e, c) =>
    if c = 0 then .error .fatal
    else if c = 1 then
      match bcmEcmpHostDtor {sw with ecmpHosts := eraseA sw.ecmpHosts k} e with
      | .error err => .error err
      | .ok sw1 => .ok (sw1, none)
    else .ok ({sw with ecmpHosts := updA sw.ecmpHosts k (fun ec => (ec.1, ec.2 - 1))}, some e)

/-! ## BcmEcmpHost construction -/

/-- Hardware outcome oracles for one ECMP construction: per-member-index
egress-write and host-add outcomes, and the group-programming outcome.
`failX = true` means the corresponding `opennsl` call fails (throwing via
`bcmCheckError`). -/
structure Oracles where
  failEgr : Nat → Bool
  failAdd : Nat → Bool
  failGroup : Bool

/-- Outcome of the member-acquisition loop: normal completion, an exception in
flight (with the members acquired so far, for the `SCOPE_FAIL` guard), or a
process abort. -/
inductive LoopRes where
  | ok (sw : Sw) (prog : List (Nat × Addr)) (paths : List Nat)
  | thrownAt (sw : Sw) (prog : List (Nat × Addr))
  | fatal

/-- `host->isProgrammed()`.  Modelled from the spec: the accessor is
header-only; §3 calls it the boolean "programmed" flag that is true exactly
when the hardware add has been issued, i.e. `added_`. -/
def isProgrammed (h : BcmHostM) : Bool := h.added

/-- The member loop of `BcmEcmpHost::BcmEcmpHost`: for each next hop,
acquire-or-share the host entry, record the pair in `prog` (a duplicate pair
fails the `CHECK(ret.second)`), CPU-punt-program a not-yet-programmed host
(mutating the table-owned object in place), and collect its egress id. -/
def ecmpLoop (vrf : Nat) (orc : Oracles) :
    List (Nat × Addr) → Nat → Sw → List (Nat × Addr) → List Nat → LoopRes
  | [], _, sw, prog, paths => .ok sw prog paths
  | nh :: rest, i, sw, prog, paths =>
    let hsw := incRefOrCreateBcmHost sw vrf nh.2
    if nh ∈ prog then .fatal
    else
      let prog1 := prog ++ [nh]
      if isProgrammed hsw.1 then
        ecmpLoop vrf orc rest (i + 1) hsw.2 prog1 (paths ++ [hsw.1.egressId])
      else
        match programToCPU hsw.2 hsw.1 nh.1 (!orc.failEgr i) (!orc.failAdd i) with
        | .ok h1 sw2 =>
          ecmpLoop vrf orc rest (i + 1)
            {sw2 with hosts := updA sw2.hosts (vrf, nh.2) (fun hc => (h1, hc.2))}
            prog1 (paths ++ [h1.egressId])
        | .thrown h1 sw2 =>
          .thrownAt {sw2 with hosts := updA sw2.hosts (vrf, nh.2) (fun hc => (h1, hc.2))} prog1
        | .fatal => .fatal

/-- The `SCOPE_FAIL` guard of the constructor: dereference every member
recorded in `prog`, in order. -/
def rollbackMembers (sw : Sw) (vrf : Nat) : List (Nat × Addr) → Except Err Sw
  | [] => .ok sw
  | nh :: rest =>
    match derefBcmHost sw (vrf, nh.2) with
    | .error e => .error e
    | .ok (sw1, _) => rollbackMembers sw1 vrf rest

/-- Outcome of constructing a `BcmEcmpHost` (or of the acquire-or-create
wrapper): success, an escaped exception (after the `SCOPE_FAIL` rollback ran),
or a process abort (scope guards do not run). -/
inductive CRes where
  | ok (e : EcmpM) (sw : Sw)
  | thrown (sw : Sw)
  | fatal

/-- `BcmEcmpHost::BcmEcmpHost`: `CHECK_GT(fwd.size(), 0)`; run the member
loop; a single path reuses the member's egress id with no group object, more
paths create a `BcmEcmpEgress`, program it with the ordered member egress ids
(modelled from the spec: `BcmEcmpEgress::program` is not in the sources; §4.2
programs the group with the ordered list of member egress ids, each initially
reachable) and register it.  Any thrown failure triggers the member
rollback. -/
def bcmEcmpHostNew (sw : Sw) (vrf : Nat) (fwd : List (Nat × Addr)) (orc : Oracles) : CRes :=
  if fwd = [] then .fatal
  else
    match ecmpLoop vrf orc fwd 0 sw [] [] with
    | .fatal => .fatal
    | .thrownAt sw1 prog =>
      match rollbackMembers sw1 vrf prog with
      | .error _ => .fatal
      | .ok sw2 => .thrown sw2
    | .ok sw1 prog paths =>
      match paths with
      | [p] => .ok { vrf := vrf, fwd := prog, egressId := p, ecmpEgressId := INVALID } sw1
      | _ =>
        if orc.failGroup then
          match rollbackMembers sw1 vrf prog with
          | .error _ => .fatal
          | .ok sw2 => .thrown sw2
        else
          let gid := sw1.nextId
          let sw2 := {sw1 with nextId := sw1.nextId + 1}
          match insertBcmEgress sw2 gid (.ecmp (paths.map (fun p => (p, true)))) with
          | .error _ => .fatal
          | .ok sw3 =>
            .ok { vrf := vrf, fwd := prog, egressId := gid, ecmpEgressId := gid } sw3

/-- `BcmHostTable::incRefOrCreateBcmEcmpHost`: share-and-bump when the key is
present; otherwise construct a `BcmEcmpHost` and bind it at count 1 (the
count-1 placeholder inserted before construction is unobservable — nothing
reads the registry during construction — and the `SCOPE_FAIL` erases it when
construction throws). -/
def incRefOrCreateBcmEcmpHost (sw : Sw) (vrf : Nat) (fwd : List (Nat × Addr))
    (orc : Oracles) : CRes :=
  match lookupA sw.ecmpHosts (vrf, fwd) with
  | some (e, _) =>
    .ok e {sw with ecmpHosts := updA sw.ecmpHosts (vrf, fwd) (fun ec => (ec.1, ec.2 + 1))}
  | none =>
    match bcmEcmpHostNew sw vrf fwd orc with
    | .fatal => .fatal
    | .thrown sw1 => .thrown sw1
    | .ok e sw1 => .ok e {sw1 with ecmpHosts := ((vrf, fwd), e, 1) :: sw1.ecmpHosts}

/-! ## Destruction order trace (for the temporal claim) -/

/-- Reference-release events emitted by `~BcmEcmpHost`. -/
inductive DtorEv where
  | egressRel (id : Nat)
  | hostRel (key : HKey)
  deriving DecidableEq, Repr

/-- Whether an event releases the group egress reference. -/
def isEgressRel : DtorEv → Bool
  | .egressRel _ => true
  | .hostRel _ => false

/-- Whether an event releases a member host reference. -/
def isHostRel : DtorEv → Bool
  | .egressRel _ => false
  | .hostRel _ => true

/-- The sequence of release events of `BcmEcmpHost::~BcmEcmpHost`: the ECMP
egress reference (when a group object exists) strictly before the per-member
host dereferences. -/
def ecmpDtorTrace (e : EcmpM) : List DtorEv :=
  (if e.ecmpEgressId ≠ INVALID then [DtorEv.egressRel e.ecmpEgressId] else []) ++
    e.fwd.map (fun nh => DtorEv.hostRel (e.vrf, nh.2))

/-! ## Link-state fan-out -/

/-- `BcmEcmpEgress::pathReachable` / `pathUnreachable` for one path.  Modelled
from the spec: `BcmEgress.cpp` is not in the sources; §4.3/§3 describe marking
the matching member slots of the group reachable (up) or unreachable (down)
in place. -/
def pathMark (g : List (Nat × Bool)) (path : Nat) (up : Bool) : List (Nat × Bool) :=
  g.map (fun pr => if pr.1 = path then (pr.1, up) else pr)

/-- The inner loop of `linkStateChanged`: mark every affected path on one
group object. -/
def markPaths (g : List (Nat × Bool)) (affected : List Nat) (up : Bool) : List (Nat × Bool) :=
  affected.foldl (fun g' path => pathMark g' path up) g

/-- The per-ECMP-host fold of `BcmHostTable::linkStateChanged`: skip hosts
without a real group; a group id that does not resolve to a registered
`BcmEcmpEgress` fails the `CHECK` (the `static_cast` of a wrong-kind object is
likewise fatal, per §4.3). -/
def linkGo (affected : List Nat) (up : Bool) :
    List (EKey × EcmpM × Nat) → Sw → Except Err Sw
  | [], sw => .ok sw
  | (_, e, _) :: rest, sw =>
    if e.ecmpEgressId = INVALID then linkGo affected up rest sw
    else
      match lookupA sw.egressMap e.ecmpEgressId with
      | some (.ecmp g, _) =>
        let em := updA sw.egressMap e.ecmpEgressId
          (fun oc => (.ecmp (markPaths g affected up), oc.2))
        linkGo affected up rest {sw with egressMap := em}
      | _ => .error .fatal

/-- `BcmHostTable::linkStateChanged(port, up)`: a port with no indexed egress
ids is a no-op; otherwise mark the affected paths on every live ECMP host's
group object. -/
def linkStateChanged (sw : Sw) (port : Nat) (up : Bool) : Except Err Sw :=
  let affected := getEgressIdsForPort sw port
  if affected = ∅ then .ok sw
  else linkGo (affected.sort (· ≤ ·)) up sw.ecmpHosts sw

/-! ## Auxiliary predicates and iterated operations used by the theorems -/

/-- Registry invariant: every host resident in the table has been programmed
(holds between public operations: a creator either programs its fresh host
before returning or rolls the acquisition back). -/
def hostsAllProgrammed (sw : Sw) : Prop := ∀ p ∈ sw.hosts, p.2.1.added = true

/-- Registry invariant: resident reference counts are positive. -/
def countsPositive (sw : Sw) : Prop := ∀ p ∈ sw.hosts, 1 ≤ p.2.2

/-- The egress id a resident host entry exposes (`INVALID` when absent). -/
def memberEgressId (sw : Sw) (k : HKey) : Nat :=
  match lookupA sw.hosts k with
  | some (h, _) => h.egressId
  | none => INVALID

/-- `N` successive `incRefOrCreate` calls on one key (the `n`-th creation
attempt would construct `mks n`). -/
def acqN [DecidableEq K] (m : List (K × V × Nat)) (k : K) (mks : Nat → V) :
    Nat → List (K × V × Nat)
  | 0 => m
  | n + 1 => (incRefOrCreateT (acqN m k mks n) k (mks n)).2

/-- `N` successive `deref` calls on one key (`none` once any of them hits the
fatal `CHECK_GT`). -/
def derN [DecidableEq K] (m : List (K × V × Nat)) (k : K) :
    Nat → Option (List (K × V × Nat))
  | 0 => some m
  | n + 1 =>
    match derN m k n with
    | none => none
    | some m1 => (derefT m1 k).map (fun r => r.1)

/-- What the ECMP member loop did for one member: bumped a pre-existing
programmed entry, created-and-programmed a fresh entry, or created an entry
whose CPU-punt programming threw partway (the member the exception escaped
from). -/
inductive MemDone where
  | shared (h0 : BcmHostM) (c0 : Nat)
  | fresh (h : BcmHostM)
  | freshAbort (h : BcmHostM)

/-- The egress id the loop recorded in `paths` for one member. -/
def doneEid : MemDone → Nat
  | .shared h0 _ => h0.egressId
  | .fresh h => h.egressId
  | .freshAbort h => h.egressId

/-- Egress ids created for fresh members that completed (released again by the
rollback, since their host's destructor dereferences them). -/
def liveEids : List ((Nat × Addr) × MemDone) → List Nat
  | [] => []
  | (_, .fresh h) :: rest => h.egressId :: liveEids rest
  | _ :: rest => liveEids rest

/-- How the registries currently describe one processed member, relative to
the pre-construction state `sw0`.  `X` is the set of egress ids inserted for
members whose hardware host-add then threw: their host is still unprogrammed,
so its destructor will not release them. -/
def entryOfDone (sw0 sw : Sw) (vrf : Nat) (X : List Nat) :
    (Nat × Addr) × MemDone → Prop
  | (nh, .shared h0 c0) =>
    lookupA sw0.hosts (vrf, nh.2) = some (h0, c0) ∧ 1 ≤ c0 ∧ h0.added = true ∧
    lookupA sw.hosts (vrf, nh.2) = some (h0, c0 + 1)
  | (nh, .fresh h) =>
    lookupA sw0.hosts (vrf, nh.2) = none ∧
    lookupA sw.hosts (vrf, nh.2) = some (h, 1) ∧ h.added = true ∧
    lookupA sw.egressMap h.egressId = some (.simple, 1)
  | (nh, .freshAbort h) =>
    lookupA sw0.hosts (vrf, nh.2) = none ∧
    lookupA sw.hosts (vrf, nh.2) = some (h, 1) ∧ h.added = false ∧
    (h.egressId ≠ INVALID → h.egressId ∈ X)

/-- Loop invariant of `BcmEcmpHost` construction: `ds` describes the members
processed so far, `X` the orphaned egress ids; everything else in the
registries is still as in `sw0`. -/
def membersInv (sw0 : Sw) (vrf : Nat) (ds : List ((Nat × Addr) × MemDone))
    (X : List Nat) (sw : Sw) : Prop :=
  (∀ d ∈ ds, entryOfDone sw0 sw vrf X d) ∧
  (ds.map (fun d => d.1.2)).Nodup ∧
  (liveEids ds ++ X).Nodup ∧
  (∀ id ∈ liveEids ds ++ X, sw0.nextId ≤ id ∧ id < sw.nextId) ∧
  (∀ k, (∀ d ∈ ds, (vrf, d.1.2) ≠ k) → lookupA sw.hosts k = lookupA sw0.hosts k) ∧
  (∀ id, id ∉ liveEids ds → id ∉ X → lookupA sw.egressMap id = lookupA sw0.egressMap id) ∧
  sw.ecmpHosts = sw0.ecmpHosts ∧
  sw.port2EgressIds = sw0.port2EgressIds ∧
  sw0.nextId ≤ sw.nextId ∧ wfSw sw

/-- The extensional effect of marking every path in `aff` on one group object:
slots whose id is affected get the new reachability flag, all others are
untouched (proved equal to the iterated `markPaths` below). -/
def markF (aff : List Nat) (up : Bool) (g : List (Nat × Bool)) : List (Nat × Bool) :=
  g.map (fun pr => if pr.1 ∈ aff then (pr.1, up) else pr)

/-- Invariant of the `linkStateChanged` fold: every egress binding is either
still the original one or an already-marked group. -/
def markedRel (aff : List Nat) (up : Bool) (m0 m : List (Nat × EgressObjM × Nat)) : Prop :=
  ∀ id, lookupA m id = lookupA m0 id ∨
    ∃ g c, lookupA m0 id = some (EgressObjM.ecmp g, c) ∧
      lookupA m id = some (EgressObjM.ecmp (markF aff up g), c)

/-! ## Concrete states used by witnesses and counterexamples -/

/-- An empty table with the allocator at 1 and a clean warm boot cache. -/
def swE : Sw :=
  { hosts := [], ecmpHosts := [], egressMap := [], port2EgressIds := [],
    warmHosts := [], warmClaimed := fun _ => 0, nextId := 1,
    hwHostAdds := 0, hwHostDels := 0 }

/-- A v4 address used by concrete runs. -/
def aA : Addr := ⟨false, 10⟩

/-- A second v4 address used by concrete runs. -/
def aB : Addr := ⟨false, 20⟩

/-- Oracles: all hardware calls succeed. -/
def noFail : Oracles := ⟨fun _ => false, fun _ => false, false⟩

/-- Oracles: the hardware host-add for member 0 fails, all else succeeds. -/
def addFail0 : Oracles := ⟨fun _ => false, fun j => j == 0, false⟩

/-- Oracles: group (`BcmEcmpEgress`) programming fails, all else succeeds. -/
def grpFail : Oracles := ⟨fun _ => false, fun _ => false, true⟩

/-- Whether a construction outcome is an escaped (rolled-back) exception. -/
def isThrown : CRes → Bool
  | .thrown _ => true
  | _ => false

/-- Project an egress-registry binding out of a thrown construction outcome. -/
def thrownEgressAt (r : CRes) (id : Nat) : Option (EgressObjM × Nat) :=
  match r with
  | .thrown sw => lookupA sw.egressMap id
  | _ => none

/-- Project a host-registry binding out of a thrown construction outcome. -/
def thrownHostAt (r : CRes) (k : HKey) : Option (BcmHostM × Nat) :=
  match r with
  | .thrown sw => lookupA sw.hosts k
  | _ => none

/-- The concrete failing construction for the rollback claim: two fresh
members, the hardware host-add of member 0 fails after its egress object was
registered. -/
def cexRun : CRes := incRefOrCreateBcmEcmpHost swE 0 [(7, aA), (8, aB)] addFail0

/-! # Theorems -/

theorem lookupA_mem [DecidableEq K] {l : List (K × V)} {k : K} {v : V}
    (h : lookupA l k = some v) : (k, v) ∈ l := by
  induction l with
  | nil => simp [lookupA] at h
  | cons p rest ih =>
    simp only [lookupA] at h
    by_cases hp : k = p.1
    · simp [hp] at h
      rw [← h, hp, Prod.mk.eta]
      exact List.mem_cons_self _ _
    · simp [hp] at h
      exact List.mem_cons_of_mem _ (ih h)

theorem wf_lookup_fresh {sw : Sw} {id : Nat} (hwf : wfSw sw) (hle : sw.nextId ≤ id) :
    lookupA sw.egressMap id = none := by
  rcases h : lookupA sw.egressMap id with _ | v
  · rfl
  · have := hwf.2 _ (lookupA_mem h)
    omega

/-! ## C4: dereferencing a missing key -/

/-- Claim C4 counterexample: `derefBcmHost` on a key absent from the host
registry (here: the empty table) returns null and leaves the table unchanged —
a silent no-op, not a fatal error. -/
theorem derefBcmHost_missing_is_silent :
    derefBcmHost swE (0, aA) = Except.ok (swE, none) ∧
    derefBcmHost swE (0, aA) ≠ Except.error Err.fatal :=
  ⟨rfl, fun h => by
    rw [show derefBcmHost swE (0, aA) = Except.ok (swE, none) from rfl] at h
    exact Except.noConfusion h⟩

/-- Claim C4 (amended): only `derefEgress` treats a missing key as fatal;
`derefBcmHost` and `derefBcmEcmpHost` return null with the table unchanged. -/
theorem deref_missing_key_behavior :
    (∀ (sw : Sw) (id : Nat), lookupA sw.egressMap id = none →
      derefEgress sw id = Except.error Err.fatal) ∧
    (∀ (sw : Sw) (k : HKey), lookupA sw.hosts k = none →
      derefBcmHost sw k = Except.ok (sw, none)) ∧
    (∀ (sw : Sw) (k : EKey), lookupA sw.ecmpHosts k = none →
      derefBcmEcmpHost sw k = Except.ok (sw, none)) := by
  refine ⟨fun sw id h => ?_, fun sw k h => ?_, fun sw k h => ?_⟩
  · simp [derefEgress, h]
  · simp [derefBcmHost, h]
  · simp [derefBcmEcmpHost, h]

/-- Witness for the amended C4 statement at the empty table. -/
theorem deref_missing_key_behavior_w :
    lookupA swE.egressMap 5 = none ∧
    derefEgress swE 5 = Except.error Err.fatal ∧
    lookupA swE.hosts (0, aA) = none ∧
    derefBcmHost swE (0, aA) = Except.ok (swE, none) :=
  ⟨rfl, deref_missing_key_behavior.1 swE 5 rfl, rfl,
    deref_missing_key_behavior.2.1 swE (0, aA) rfl⟩

/-! ## C8: destruction order -/

/-- Claim C8: in `~BcmEcmpHost`, when a group egress object exists, its
reference release occurs strictly before every member host release in the
destructor's event trace. -/
theorem ecmpDtor_group_release_first (e : EcmpM)
    (hg : e.ecmpEgressId ≠ INVALID) (i j : Nat)
    (hi : i < (ecmpDtorTrace e).length) (hj : j < (ecmpDtorTrace e).length)
    (hie : isEgressRel ((ecmpDtorTrace e).get ⟨i, hi⟩) = true)
    (hje : isHostRel ((ecmpDtorTrace e).get ⟨j, hj⟩) = true) : i < j := by
  have htr : ecmpDtorTrace e =
      DtorEv.egressRel e.ecmpEgressId :: e.fwd.map (fun nh => DtorEv.hostRel (e.vrf, nh.2)) := by
    simp [ecmpDtorTrace, hg]
  rcases i with _ | i1
  · rcases j with _ | j1
    · exfalso
      have h0 : (ecmpDtorTrace e).get ⟨0, hj⟩ = DtorEv.egressRel e.ecmpEgressId := by
        simp [htr]
      rw [h0] at hje
      simp [isHostRel] at hje
    · exact Nat.succ_pos j1
  · exfalso
    have hlen : i1 < e.fwd.length := by
      have := hi
      rw [htr] at this
      simpa using this
    have hsucc : (ecmpDtorTrace e).get ⟨i1 + 1, hi⟩ =
        DtorEv.hostRel (e.vrf, (e.fwd.get ⟨i1, hlen⟩).2) := by
      simp [htr]
    rw [hsucc] at hie
    simp [isEgressRel] at hie

/-- Witness for C8: a two-event trace of a one-member ECMP host with group id 3. -/
theorem ecmpDtor_group_release_first_w :
    (EcmpM.mk 0 [(1, aA)] 3 3).ecmpEgressId ≠ INVALID ∧ (0 : Nat) < 1 :=
  ⟨by decide,
    ecmpDtor_group_release_first (EcmpM.mk 0 [(1, aA)] 3 3) (by decide) 0 1
      (by decide) (by decide) (by decide) (by decide)⟩

/-! ## C10: constructor takes an egress reference the destructor keeps -/

/-- Claim C10: constructing a `BcmHost` with a valid referenced egress id
increments that egress object's count; destroying the host while it was never
programmed releases nothing, so the count stays strictly higher than before
construction. -/
theorem bcmHost_unprogrammed_keeps_egress_reference (sw : Sw) (vrf : Nat)
    (addr : Addr) (eid : Nat) (obj : EgressObjM) (c : Nat)
    (hne : eid ≠ INVALID) (hl : lookupA sw.egressMap eid = some (obj, c)) :
    ∃ h sw1, bcmHostNew sw vrf addr eid = Except.ok (h, sw1) ∧ h.added = false ∧
      lookupA sw1.egressMap eid = some (obj, c + 1) ∧
      bcmHostDtor sw1 h = Except.ok sw1 ∧ c < c + 1 := by
  refine ⟨{ vrf := vrf, addr := addr, egressId := eid, added := false, port := 0 },
    {sw with egressMap := updA sw.egressMap eid (fun oc => (oc.1, oc.2 + 1))},
    ?_, rfl, ?_, by simp [bcmHostDtor], Nat.lt_succ_self c⟩
  · simp [bcmHostNew, hne, incEgressReference, hl]
  · rw [lookupA_updA_self, hl]
    rfl

/-- Witness for C10 at a table holding egress 4 at count 2. -/
theorem bcmHost_unprogrammed_keeps_egress_reference_w :
    (4 : Nat) ≠ INVALID ∧
    lookupA ({swE with egressMap := [(4, EgressObjM.simple, 2)]} : Sw).egressMap 4 =
      some (EgressObjM.simple, 2) ∧
    (∃ h sw1, bcmHostNew {swE with egressMap := [(4, EgressObjM.simple, 2)]} 0 aA 4 =
        Except.ok (h, sw1) ∧ h.added = false ∧
      lookupA sw1.egressMap 4 = some (EgressObjM.simple, 3) ∧
      bcmHostDtor sw1 h = Except.ok sw1 ∧ 2 < 3) :=
  ⟨by decide, rfl,
    bcmHost_unprogrammed_keeps_egress_reference _ 0 aA 4 EgressObjM.simple 2
      (by decide) rfl⟩

/-! ## C2: warm-boot reconciliation in addBcmHost -/

/-- Claim C2: with a warm-boot-discovered entry for the host's `(vrf, addr)`
key, a match on the compared fields acknowledges the discovery exactly once
(and a repeated call acknowledges nothing further) with no hardware add, while
any mismatch is fatal. -/
theorem addBcmHost_warm_boot_reconciliation (sw : Sw) (h : BcmHostM)
    (isMultipath hwAddOk : Bool) (w : L3HostM)
    (hadded : h.added = false)
    (hwarm : lookupA sw.warmHosts (h.vrf, h.addr) = some w) :
    (equivalentHosts (withMultipath (initHostCommon h) isMultipath) w = true →
      ∃ sw1, addBcmHost sw h isMultipath hwAddOk =
          ProgRes.ok {h with added := true} sw1 ∧
        sw1.hwHostAdds = sw.hwHostAdds ∧
        sw1.warmClaimed (h.vrf, h.addr) = sw.warmClaimed (h.vrf, h.addr) + 1 ∧
        (∀ k, k ≠ (h.vrf, h.addr) → sw1.warmClaimed k = sw.warmClaimed k) ∧
        addBcmHost sw1 {h with added := true} isMultipath hwAddOk =
          ProgRes.ok {h with added := true} sw1) ∧
    (equivalentHosts (withMultipath (initHostCommon h) isMultipath) w = false →
      addBcmHost sw h isMultipath hwAddOk = ProgRes.fatal) := by
  constructor
  · intro heq
    refine ⟨{sw with warmClaimed := fun k =>
        if k = (h.vrf, h.addr) then sw.warmClaimed k + 1 else sw.warmClaimed k},
      ?_, rfl, ?_, ?_, ?_⟩
    · simp [addBcmHost, hadded, hwarm, heq]
    · simp
    · intro k hk
      simp [hk]
    · simp [addBcmHost]
  · intro hne
    simp [addBcmHost, hadded, hwarm, hne]

/-- Witness for C2: vrf 0, address `aA`, egress 7, matching discovered entry. -/
theorem addBcmHost_warm_boot_reconciliation_w :
    (BcmHostM.mk 0 aA 7 false 0).added = false ∧
    lookupA ({swE with warmHosts := [((0, aA), L3HostM.mk 0 0 aA 7)]} : Sw).warmHosts
      (0, aA) = some (L3HostM.mk 0 0 aA 7) ∧
    equivalentHosts (withMultipath (initHostCommon (BcmHostM.mk 0 aA 7 false 0)) false)
      (L3HostM.mk 0 0 aA 7) = true ∧
    (∃ sw1, addBcmHost {swE with warmHosts := [((0, aA), L3HostM.mk 0 0 aA 7)]}
        (BcmHostM.mk 0 aA 7 false 0) false true =
        ProgRes.ok {BcmHostM.mk 0 aA 7 false 0 with added := true} sw1 ∧
      sw1.hwHostAdds = ({swE with warmHosts := [((0, aA), L3HostM.mk 0 0 aA 7)]} : Sw).hwHostAdds ∧
      sw1.warmClaimed (0, aA) =
        ({swE with warmHosts := [((0, aA), L3HostM.mk 0 0 aA 7)]} : Sw).warmClaimed (0, aA) + 1 ∧
      (∀ k, k ≠ ((0 : Nat), aA) →
        sw1.warmClaimed k =
          ({swE with warmHosts := [((0, aA), L3HostM.mk 0 0 aA 7)]} : Sw).warmClaimed k) ∧
      addBcmHost sw1 {BcmHostM.mk 0 aA 7 false 0 with added := true} false true =
        ProgRes.ok {BcmHostM.mk 0 aA 7 false 0 with added := true} sw1) :=
  ⟨rfl, rfl, by decide,
    (addBcmHost_warm_boot_reconciliation
      {swE with warmHosts := [((0, aA), L3HostM.mk 0 0 aA 7)]}
      (BcmHostM.mk 0 aA 7 false 0) false true (L3HostM.mk 0 0 aA 7) rfl rfl).1
      (by decide)⟩

/-! ## C1: balanced acquire/deref on one key -/

theorem acqN_shape [DecidableEq K] (m : List (K × V × Nat)) (k : K) (mks : Nat → V)
    (habs : lookupA m k = none) (n : Nat) :
    acqN m k mks (n + 1) = (k, mks 0, n + 1) :: m := by
  induction n with
  | zero =>
    simp [acqN, incRefOrCreateT, habs]
  | succ n ih =>
    show (incRefOrCreateT (acqN m k mks (n + 1)) k (mks (n + 1))).2 = _
    rw [ih]
    simp [incRefOrCreateT, lookupA, updA, updA_not_mem m k _ habs]

theorem derN_countdown [DecidableEq K] (m : List (K × V × Nat)) (k : K) (v : V)
    (habs : lookupA m k = none) :
    ∀ j r, 1 ≤ r → derN ((k, v, j + r) :: m) k j = some ((k, v, r) :: m) := by
  intro j
  induction j with
  | zero => intro r _; simp [derN]
  | succ j ih =>
    intro r hr
    have hstep : j + 1 + r = j + (r + 1) := by omega
    rw [hstep]
    simp only [derN, ih (r + 1) (by omega)]
    have h0 : ¬ (r + 1 = 0) := by omega
    have h1 : ¬ (r + 1 = 1) := by omega
    simp [derefT, lookupA, h0, h1, updA, updA_not_mem m k _ habs]

/-- Claim C1: starting from a key absent from a registry, `N` acquires
followed by `N` derefs restore the registry exactly (the key is gone), and
after `N − 1` derefs one more acquire still returns the object the original
acquire returned. -/
theorem acquire_deref_balanced {K : Type u} {V : Type v} [DecidableEq K]
    (m : List (K × V × Nat)) (k : K) (mks : Nat → V) (N : Nat) (w : V)
    (habs : lookupA m k = none) (hN : 1 ≤ N) :
    derN (acqN m k mks N) k N = some m ∧
    (∃ m1, derN (acqN m k mks N) k (N - 1) = some m1 ∧
      (incRefOrCreateT m1 k w).1 = (incRefOrCreateT m k (mks 0)).1) := by
  rcases N with _ | n
  · omega
  rw [acqN_shape m k mks habs n]
  constructor
  · show derN _ k (n + 1) = some m
    rw [derN]
    rw [derN_countdown m k (mks 0) habs n 1 (le_refl 1)]
    simp [derefT, lookupA, eraseA, eraseA_not_mem m k habs]
  · refine ⟨(k, mks 0, 1) :: m, ?_, ?_⟩
    · have h2 : n + 1 - 1 = n := by omega
      rw [h2]
      exact derN_countdown m k (mks 0) habs n 1 (le_refl 1)
    · simp [incRefOrCreateT, lookupA, habs]

/-- Witness for C1 at `K = V = Nat`, the empty registry and `N = 2`. -/
theorem acquire_deref_balanced_w :
    lookupA ([] : List (Nat × Nat × Nat)) 0 = none ∧ (1 : Nat) ≤ 2 ∧
    (derN (acqN ([] : List (Nat × Nat × Nat)) 0 (fun n => n + 50) 2) 0 2 = some [] ∧
      (∃ m1, derN (acqN ([] : List (Nat × Nat × Nat)) 0 (fun n => n + 50) 2) 0 1 = some m1 ∧
        (incRefOrCreateT m1 0 99).1 =
          (incRefOrCreateT ([] : List (Nat × Nat × Nat)) 0 ((fun n => n + 50) 0)).1)) :=
  ⟨rfl, by decide, acquire_deref_balanced [] 0 (fun n => n + 50) 2 99 rfl (by decide)⟩

/-! ## C9: port reverse-index maintenance -/

theorem lookupA_getOrCreatePort_self (m : List (Nat × Finset Nat)) (p : Nat) :
    lookupA (getOrCreatePort m p) p = some ((lookupA m p).getD ∅) := by
  rcases h : lookupA m p with _ | s
  · simp [getOrCreatePort, h, lookupA]
  · simp [getOrCreatePort, h]

theorem lookupA_getOrCreatePort_ne (m : List (Nat × Finset Nat)) (p q : Nat)
    (hq : q ≠ p) : lookupA (getOrCreatePort m p) q = lookupA m q := by
  rcases h : lookupA m p with _ | s
  · simp [getOrCreatePort, h, lookupA, hq]
  · simp [getOrCreatePort, h]

/-- Effect of one `port2EgressIds_[p].erase/insert` step on the keyed set. -/
theorem lookupA_portStep_self (m : List (Nat × Finset Nat)) (p : Nat)
    (f : Finset Nat → Finset Nat) :
    lookupA (updA (getOrCreatePort m p) p f) p = some (f ((lookupA m p).getD ∅)) := by
  rw [lookupA_updA_self, lookupA_getOrCreatePort_self]
  rfl

theorem lookupA_portStep_ne (m : List (Nat × Finset Nat)) (p q : Nat)
    (f : Finset Nat → Finset Nat) (hq : q ≠ p) :
    lookupA (updA (getOrCreatePort m p) p f) q = lookupA m q := by
  rw [lookupA_updA_ne _ _ _ _ hq, lookupA_getOrCreatePort_ne _ _ _ hq]

/-- Claim C9: `updatePortEgressMapping(egressId, oldPort, newPort)` removes the
id from the old port's set exactly when the old port is non-zero, inserts it
into the new port's set exactly when the new port is non-zero, never creates a
key for port 0, and changes no other port's binding nor any other id's
membership. -/
theorem updatePortEgressMapping_spec (sw : Sw) (e oldP newP : Nat)
    (h0 : lookupA sw.port2EgressIds 0 = none) :
    (oldP ≠ 0 → newP ≠ oldP →
      e ∉ getEgressIdsForPort (updatePortEgressMapping sw e oldP newP) oldP) ∧
    (newP ≠ 0 → e ∈ getEgressIdsForPort (updatePortEgressMapping sw e oldP newP) newP) ∧
    lookupA (updatePortEgressMapping sw e oldP newP).port2EgressIds 0 = none ∧
    (∀ q, q ≠ oldP → q ≠ newP →
      lookupA (updatePortEgressMapping sw e oldP newP).port2EgressIds q =
        lookupA sw.port2EgressIds q) ∧
    (∀ q x, x ≠ e →
      (x ∈ getEgressIdsForPort (updatePortEgressMapping sw e oldP newP) q ↔
        x ∈ getEgressIdsForPort sw q)) ∧
    (oldP = 0 → ∀ q, q ≠ newP →
      lookupA (updatePortEgressMapping sw e oldP newP).port2EgressIds q =
        lookupA sw.port2EgressIds q) := by
  by_cases ho : oldP = 0 <;> by_cases hn : newP = 0
  · subst ho hn
    refine ⟨fun h _ => absurd rfl h, fun h => absurd rfl h, h0, fun q _ _ => ?_,
      fun q x _ => ?_, fun _ q _ => ?_⟩ <;>
      simp [updatePortEgressMapping]
  · subst ho
    have hm : (updatePortEgressMapping sw e 0 newP).port2EgressIds =
        updA (getOrCreatePort sw.port2EgressIds newP) newP (fun s => insert e s) := by
      simp [updatePortEgressMapping, hn]
    refine ⟨fun h _ => absurd rfl h, fun _ => ?_, ?_, fun q hqo hqn => ?_, fun q x hx => ?_,
      fun _ q hq => ?_⟩
    · simp [getEgressIdsForPort, hm, lookupA_portStep_self]
    · rw [hm, lookupA_portStep_ne _ _ _ _ (fun h => hn h.symm)]
      exact h0
    · rw [hm, lookupA_portStep_ne _ _ _ _ hqn]
    · by_cases hq : q = newP
      · subst hq
        simp [getEgressIdsForPort, hm, lookupA_portStep_self, hx]
      · rw [getEgressIdsForPort, hm, lookupA_portStep_ne _ _ _ _ hq]
        rfl
    · rw [hm, lookupA_portStep_ne _ _ _ _ hq]
  · subst hn
    have hm : (updatePortEgressMapping sw e oldP 0).port2EgressIds =
        updA (getOrCreatePort sw.port2EgressIds oldP) oldP (fun s => s.erase e) := by
      simp [updatePortEgressMapping, ho]
    refine ⟨fun _ _ => ?_, fun h => absurd rfl h, ?_, fun q hqo _ => ?_, fun q x hx => ?_,
      fun h => absurd h ho⟩
    · simp [getEgressIdsForPort, hm, lookupA_portStep_self]
    · rw [hm, lookupA_portStep_ne _ _ _ _ (fun h => ho h.symm)]
      exact h0
    · rw [hm, lookupA_portStep_ne _ _ _ _ hqo]
    · by_cases hq : q = oldP
      · subst hq
        simp [getEgressIdsForPort, hm, lookupA_portStep_self, Finset.mem_erase, hx]
      · rw [getEgressIdsForPort, hm, lookupA_portStep_ne _ _ _ _ hq]
        rfl
  · have hm : (updatePortEgressMapping sw e oldP newP).port2EgressIds =
        updA (getOrCreatePort
            (updA (getOrCreatePort sw.port2EgressIds oldP) oldP (fun s => s.erase e))
          newP) newP (fun s => insert e s) := by
      simp [updatePortEgressMapping, ho, hn]
    refine ⟨fun _ hne => ?_, fun _ => ?_, ?_, fun q hqo hqn => ?_, fun q x hx => ?_,
      fun h => absurd h ho⟩
    · rw [getEgressIdsForPort, hm, lookupA_portStep_ne _ _ _ _ (Ne.symm hne),
        lookupA_portStep_self]
      simp
    · simp [getEgressIdsForPort, hm, lookupA_portStep_self]
    · rw [hm, lookupA_portStep_ne _ _ _ _ (fun h => hn h.symm),
        lookupA_portStep_ne _ _ _ _ (fun h => ho h.symm)]
      exact h0
    · rw [hm, lookupA_portStep_ne _ _ _ _ hqn, lookupA_portStep_ne _ _ _ _ hqo]
    · by_cases hq : q = newP
      · rw [hq, getEgressIdsForPort, hm, lookupA_portStep_self, getEgressIdsForPort]
        by_cases hq2 : newP = oldP
        · rw [hq2, lookupA_portStep_self]
          simp [hx, Finset.mem_erase]
        · rw [lookupA_portStep_ne _ _ _ _ hq2]
          simp [hx]
      · by_cases hq2 : q = oldP
        · rw [hq2, getEgressIdsForPort, hm,
            lookupA_portStep_ne _ _ _ _ (fun h => hq (hq2 ▸ h)), lookupA_portStep_self,
            getEgressIdsForPort]
          simp [hx, Finset.mem_erase]
        · rw [getEgressIdsForPort, hm, lookupA_portStep_ne _ _ _ _ hq,
            lookupA_portStep_ne _ _ _ _ hq2]
          rfl

/-- Witness for C9: moving egress 7 from port 2 to port 3 on a table whose
index holds `{7}` under port 2. -/
theorem updatePortEgressMapping_spec_w :
    lookupA ({swE with port2EgressIds := [(2, {7})]} : Sw).port2EgressIds 0 = none ∧
    (7 ∉ getEgressIdsForPort
        (updatePortEgressMapping {swE with port2EgressIds := [(2, {7})]} 7 2 3) 2 ∧
      7 ∈ getEgressIdsForPort
        (updatePortEgressMapping {swE with port2EgressIds := [(2, {7})]} 7 2 3) 3) :=
  ⟨rfl,
    (updatePortEgressMapping_spec {swE with port2EgressIds := [(2, {7})]} 7 2 3 rfl).1
      (by decide) (by decide),
    (updatePortEgressMapping_spec {swE with port2EgressIds := [(2, {7})]} 7 2 3 rfl).2.1
      (by decide)⟩

/-! ## C6: double programming and the port index -/

theorem updatePort_zero_zero (sw : Sw) (e : Nat) : updatePortEgressMapping sw e 0 0 = sw := by
  simp [updatePortEgressMapping]

theorem program_fresh_ok (sw : Sw) (h : BcmHostM) (intf : Nat) (mac : Option Nat)
    (p : Nat) (act : RouteForwardAction)
    (hE : h.egressId = INVALID) (hA : h.added = false) (hwf : wfSw sw)
    (hwarm : lookupA sw.warmHosts (h.vrf, h.addr) = none) :
    bcmHostProgram sw h intf mac p act true true =
      ProgRes.ok {h with egressId := sw.nextId, added := true, port := p}
        (updatePortEgressMapping
          {sw with egressMap := (sw.nextId, EgressObjM.simple, 1) :: sw.egressMap,
                   nextId := sw.nextId + 1, hwHostAdds := sw.hwHostAdds + 1}
          sw.nextId h.port p) := by
  have hmiss : lookupA sw.egressMap sw.nextId = none := wf_lookup_fresh hwf (le_refl _)
  simp [bcmHostProgram, hE, hA, insertBcmEgress, hmiss, addBcmHost, hwarm]

/-- Claim C6: programming a fresh host entry twice with the same arguments
issues exactly one hardware host-add (the second call does not re-add); the
second call still runs the port-index update, which leaves the index unchanged
when the port argument equals the stored port and changes it exactly when it
differs. -/
theorem program_twice_idempotent_add (sw0 : Sw) (h0 : BcmHostM) (intf : Nat)
    (mac : Option Nat) (p pb : Nat) (act : RouteForwardAction)
    (hE : h0.egressId = INVALID) (hA : h0.added = false) (hP : h0.port = 0)
    (hwf : wfSw sw0)
    (hwarm : lookupA sw0.warmHosts (h0.vrf, h0.addr) = none)
    (hfresh : ∀ q s, lookupA sw0.port2EgressIds q = some s → ∀ x ∈ s, x < sw0.nextId) :
    ∃ h1 sw1, bcmHostProgram sw0 h0 intf mac p act true true = ProgRes.ok h1 sw1 ∧
      sw1.hwHostAdds = sw0.hwHostAdds + 1 ∧
      ∃ h2 sw2, bcmHostProgram sw1 h1 intf mac pb act true true = ProgRes.ok h2 sw2 ∧
        sw2.hwHostAdds = sw1.hwHostAdds ∧
        (pb = p → ∀ q, getEgressIdsForPort sw2 q = getEgressIdsForPort sw1 q) ∧
        (pb ≠ p → ∃ q, getEgressIdsForPort sw2 q ≠ getEgressIdsForPort sw1 q) := by
  have hn0 : sw0.nextId ≠ INVALID := by
    have := hwf.1
    simp [INVALID]
    omega
  set n0 := sw0.nextId with hn0def
  set swB : Sw := {sw0 with egressMap := (n0, EgressObjM.simple, 1) :: sw0.egressMap, nextId := n0 + 1, hwHostAdds := sw0.hwHostAdds + 1} with hswB
  set sw1 := updatePortEgressMapping swB n0 h0.port p with hsw1
  set h1 : BcmHostM := {h0 with egressId := n0, added := true, port := p} with hh1
  have hcall1 := program_fresh_ok sw0 h0 intf mac p act hE hA hwf hwarm
  refine ⟨h1, sw1, hcall1, rfl, ?_⟩
  have hh1p : h1.port = p := rfl
  -- the port index after the first call
  have hport1 : sw1.port2EgressIds =
      (updatePortEgressMapping swB n0 0 p).port2EgressIds := by
    rw [hsw1, hP]
  have hegr1 : sw1.egressMap = (n0, EgressObjM.simple, 1) :: sw0.egressMap := rfl
  have hlook1 : lookupA sw1.egressMap h1.egressId = some (EgressObjM.simple, 1) := by
    rw [hegr1]
    simp [lookupA]
  -- the id is in p's set after the first call (when p is a real port)
  have hmemb0 : p ≠ 0 → n0 ∈ getEgressIdsForPort sw1 p := by
    intro hp
    rw [getEgressIdsForPort, hport1]
    have hm1 : (updatePortEgressMapping swB n0 0 p).port2EgressIds =
        updA (getOrCreatePort swB.port2EgressIds p) p (fun s => insert n0 s) := by
      simp [updatePortEgressMapping, hp]
    rw [hm1, lookupA_portStep_self]
    simp
  -- the id is in no other port's set after the first call
  have hfresh1 : ∀ q, q ≠ p → n0 ∉ getEgressIdsForPort sw1 q := by
    intro q hq
    have heq : lookupA sw1.port2EgressIds q = lookupA sw0.port2EgressIds q := by
      rw [hport1]
      by_cases hp : p = 0
      · rw [hp, updatePort_zero_zero]
      · have hm1 : (updatePortEgressMapping swB n0 0 p).port2EgressIds =
            updA (getOrCreatePort swB.port2EgressIds p) p (fun s => insert n0 s) := by
          simp [updatePortEgressMapping, hp]
        rw [hm1, lookupA_portStep_ne _ p q _ hq]
    rw [getEgressIdsForPort, heq]
    rcases hv : lookupA sw0.port2EgressIds q with _ | s
    · simp
    · intro hmem
      have := hfresh q s hv n0 (by simpa using hmem)
      omega
  -- the second call: existing simple egress, already added, only the index moves
  have hcall2 : bcmHostProgram sw1 h1 intf mac pb act true true =
      ProgRes.ok {h1 with port := pb} (updatePortEgressMapping sw1 h1.egressId h1.port pb) := by
    have hne : ¬ h1.egressId = INVALID := hn0
    simp [bcmHostProgram, hne, hlook1]
  refine ⟨{h1 with port := pb}, updatePortEgressMapping sw1 h1.egressId h1.port pb,
    hcall2, rfl, ?_, ?_⟩
  · -- identical port: the index is semantically unchanged
    intro hpb q
    rw [hpb]
    by_cases hp : p = 0
    · rw [hh1p, hp, updatePort_zero_zero]
    · have hm2 : (updatePortEgressMapping sw1 h1.egressId h1.port p).port2EgressIds =
          updA (getOrCreatePort
              (updA (getOrCreatePort sw1.port2EgressIds p) p (fun s => s.erase n0)) p) p
            (fun s => insert n0 s) := by
        rw [hh1p]
        simp [updatePortEgressMapping, hp]
      by_cases hq : q = p
      · have hinner : lookupA (updA (getOrCreatePort sw1.port2EgressIds p) p
            (fun s => s.erase n0)) p = some ((getEgressIdsForPort sw1 p).erase n0) := by
          rw [lookupA_portStep_self, getEgressIdsForPort]
        have houter : lookupA (updA (getOrCreatePort
            (updA (getOrCreatePort sw1.port2EgressIds p) p (fun s => s.erase n0)) p) p
            (fun s => insert n0 s)) p =
            some (insert n0 ((getEgressIdsForPort sw1 p).erase n0)) := by
          rw [lookupA_portStep_self, hinner]
          rfl
        rw [hq, getEgressIdsForPort, hm2, houter]
        have hmemb := hmemb0 hp
        simp [Finset.insert_erase hmemb]
      · rw [getEgressIdsForPort, getEgressIdsForPort, hm2,
          lookupA_portStep_ne _ p q _ hq, lookupA_portStep_ne _ p q _ hq]
  · -- differing port: the index changes
    intro hpb
    by_cases hp : p = 0
    · -- first call indexed nothing; second call inserts at pb ≠ 0
      have hpb0 : pb ≠ 0 := by
        intro hc
        exact hpb (hc.trans hp.symm)
      refine ⟨pb, ?_⟩
      have hm2 : (updatePortEgressMapping sw1 h1.egressId h1.port pb).port2EgressIds =
          updA (getOrCreatePort sw1.port2EgressIds pb) pb (fun s => insert n0 s) := by
        rw [hh1p]
        simp [updatePortEgressMapping, hp, hpb0]
      rw [getEgressIdsForPort, hm2, lookupA_portStep_self]
      intro hcontra
      have hnotin := hfresh1 pb hpb
      rw [getEgressIdsForPort] at hnotin
      have hmem2 : n0 ∈ (lookupA sw1.port2EgressIds pb).getD ∅ := by
        rw [← show ((some (insert n0 ((lookupA sw1.port2EgressIds pb).getD ∅))).getD ∅) =
            (lookupA sw1.port2EgressIds pb).getD ∅ from hcontra]
        simp
      exact hnotin hmem2
    · -- the second call erases the id from p's set
      refine ⟨p, ?_⟩
      have hmemb := hmemb0 hp
      have hstep1 : lookupA (updA (getOrCreatePort sw1.port2EgressIds p) p
          (fun s => s.erase n0)) p = some ((getEgressIdsForPort sw1 p).erase n0) := by
        rw [lookupA_portStep_self, getEgressIdsForPort]
      have hval : getEgressIdsForPort
          (updatePortEgressMapping sw1 h1.egressId h1.port pb) p =
          (getEgressIdsForPort sw1 p).erase n0 := by
        by_cases hpb0 : pb = 0
        · have hm2 : (updatePortEgressMapping sw1 h1.egressId h1.port pb).port2EgressIds =
              updA (getOrCreatePort sw1.port2EgressIds p) p (fun s => s.erase n0) := by
            rw [hh1p]
            simp [updatePortEgressMapping, hp, hpb0]
          rw [getEgressIdsForPort, hm2, hstep1]
          rfl
        · have hm2 : (updatePortEgressMapping sw1 h1.egressId h1.port pb).port2EgressIds =
              updA (getOrCreatePort
                  (updA (getOrCreatePort sw1.port2EgressIds p) p (fun s => s.erase n0)) pb) pb
                (fun s => insert n0 s) := by
            rw [hh1p]
            simp [updatePortEgressMapping, hp, hpb0]
          rw [getEgressIdsForPort, hm2, lookupA_portStep_ne _ pb p _ (Ne.symm hpb), hstep1]
          rfl
      rw [hval]
      intro hcontra
      have hni : n0 ∉ (getEgressIdsForPort sw1 p).erase n0 := Finset.not_mem_erase _ _
      rw [hcontra] at hni
      exact hni hmemb

/-- Witness for C6: fresh host, mac rewrite to port 2 twice (`pb = p = 2`). -/
theorem program_twice_idempotent_add_w :
    (BcmHostM.mk 0 aA INVALID false 0).egressId = INVALID ∧
    (∃ h1 sw1, bcmHostProgram swE (BcmHostM.mk 0 aA INVALID false 0) 5 (some 1) 2
        RouteForwardAction.drop true true = ProgRes.ok h1 sw1 ∧
      sw1.hwHostAdds = swE.hwHostAdds + 1 ∧
      ∃ h2 sw2, bcmHostProgram sw1 h1 5 (some 1) 2 RouteForwardAction.drop true true =
          ProgRes.ok h2 sw2 ∧
        sw2.hwHostAdds = sw1.hwHostAdds ∧
        ((2 : Nat) = 2 → ∀ q, getEgressIdsForPort sw2 q = getEgressIdsForPort sw1 q) ∧
        ((2 : Nat) ≠ 2 → ∃ q, getEgressIdsForPort sw2 q ≠ getEgressIdsForPort sw1 q)) :=
  ⟨rfl, program_twice_idempotent_add swE (BcmHostM.mk 0 aA INVALID false 0) 5 (some 1) 2 2
    RouteForwardAction.drop rfl rfl rfl (by constructor <;> simp [swE]) rfl
    (fun q s hv => by simp [swE, lookupA] at hv)⟩

/-! ## C7: link-state fan-out -/

theorem markF_pathMark (aff : List Nat) (up : Bool) (x : Nat) :
    ∀ g : List (Nat × Bool), markF aff up (pathMark g x up) = markF (x :: aff) up g := by
  intro g
  induction g with
  | nil => rfl
  | cons pr g ihg =>
    show markF aff up ((if pr.1 = x then (pr.1, up) else pr) :: pathMark g x up) = _
    by_cases hx : pr.1 = x
    · simp only [markF, pathMark, List.map_cons] at ihg ⊢
      simp [hx, ihg]
    · simp only [markF, pathMark, List.map_cons] at ihg ⊢
      simp [hx, ihg, List.mem_cons]

theorem markPaths_eq (up : Bool) :
    ∀ (aff : List Nat) (g : List (Nat × Bool)), markPaths g aff up = markF aff up g := by
  intro aff
  induction aff with
  | nil =>
    intro g
    simp [markPaths, markF]
  | cons x aff ih =>
    intro g
    show markPaths (pathMark g x up) aff up = _
    rw [ih (pathMark g x up), markF_pathMark]

theorem markF_idem (aff : List Nat) (up : Bool) (g : List (Nat × Bool)) :
    markF aff up (markF aff up g) = markF aff up g := by
  induction g with
  | nil => rfl
  | cons pr g ihg =>
    simp only [markF, List.map_cons] at ihg ⊢
    by_cases hx : pr.1 ∈ aff <;> simp [hx, ihg]

theorem linkGo_spec (aff : List Nat) (up : Bool) :
    ∀ (entries : List (EKey × EcmpM × Nat)) (sw0 sw : Sw),
    markedRel aff up sw0.egressMap sw.egressMap →
    (∀ kec ∈ entries, kec.2.1.ecmpEgressId ≠ INVALID →
      ∃ g c, lookupA sw0.egressMap kec.2.1.ecmpEgressId = some (EgressObjM.ecmp g, c)) →
    ∃ sw1, linkGo aff up entries sw = Except.ok sw1 ∧
      sw1.hosts = sw.hosts ∧ sw1.ecmpHosts = sw.ecmpHosts ∧
      sw1.port2EgressIds = sw.port2EgressIds ∧ sw1.warmHosts = sw.warmHosts ∧
      sw1.nextId = sw.nextId ∧ sw1.hwHostAdds = sw.hwHostAdds ∧
      markedRel aff up sw0.egressMap sw1.egressMap ∧
      (∀ kec ∈ entries, kec.2.1.ecmpEgressId ≠ INVALID →
        ∀ g c, lookupA sw0.egressMap kec.2.1.ecmpEgressId = some (EgressObjM.ecmp g, c) →
          lookupA sw1.egressMap kec.2.1.ecmpEgressId =
            some (EgressObjM.ecmp (markF aff up g), c)) ∧
      (∀ id, (∀ kec ∈ entries, kec.2.1.ecmpEgressId ≠ id) →
        lookupA sw1.egressMap id = lookupA sw.egressMap id) := by
  intro entries
  induction entries with
  | nil =>
    intro sw0 sw hM hG
    exact ⟨sw, rfl, rfl, rfl, rfl, rfl, rfl, rfl, hM, by simp, fun id _ => rfl⟩
  | cons kec rest ih =>
    intro sw0 sw hM hG
    obtain ⟨k, e, c⟩ := kec
    by_cases hid : e.ecmpEgressId = INVALID
    · have hstep : linkGo aff up ((k, e, c) :: rest) sw = linkGo aff up rest sw := by
        simp [linkGo, hid]
      obtain ⟨sw1, hrun, hf1, hf2, hf3, hf4, hf5, hf6, hM1, hproc, hout⟩ :=
        ih sw0 sw hM (fun kec2 hk2 => hG kec2 (List.mem_cons_of_mem _ hk2))
      refine ⟨sw1, by rw [hstep]; exact hrun, hf1, hf2, hf3, hf4, hf5, hf6, hM1, ?_, ?_⟩
      · intro kec2 hk2 hne g cg hg
        rcases List.mem_cons.mp hk2 with hhd | htl
        · exfalso
          rw [hhd] at hne
          exact hne hid
        · exact hproc kec2 htl hne g cg hg
      · intro id hall
        exact hout id (fun kec2 hk2 => hall kec2 (List.mem_cons_of_mem _ hk2))
    · obtain ⟨g0, c0, hg0⟩ := hG (k, e, c) (List.mem_cons_self _ _) hid
      -- the current binding for this group id is the original or already marked
      have hcur : ∃ gcur, lookupA sw.egressMap e.ecmpEgressId = some (EgressObjM.ecmp gcur, c0) ∧
          markF aff up gcur = markF aff up g0 := by
        rcases hM e.ecmpEgressId with hL | ⟨g2, c2, hg2, hg2m⟩
        · exact ⟨g0, by rw [hL, hg0], rfl⟩
        · rw [hg0] at hg2
          have hinj := Option.some.inj hg2
          have hgg : g0 = g2 := by
            have h1 : EgressObjM.ecmp g0 = EgressObjM.ecmp g2 := congrArg Prod.fst hinj
            injection h1
          have hcc : c0 = c2 := congrArg Prod.snd hinj
          refine ⟨markF aff up g2, ?_, by rw [← hgg, markF_idem]⟩
          rw [hg2m, ← hcc]
      obtain ⟨gcur, hlook, hmark⟩ := hcur
      obtain ⟨swS, hstep, hes, hs1, hs2, hs3, hs4, hs5, hs6⟩ :
          ∃ swS, linkGo aff up ((k, e, c) :: rest) sw = linkGo aff up rest swS ∧
            swS.egressMap = updA sw.egressMap e.ecmpEgressId
              (fun oc => (EgressObjM.ecmp (markPaths gcur aff up), oc.2)) ∧
            swS.hosts = sw.hosts ∧ swS.ecmpHosts = sw.ecmpHosts ∧
            swS.port2EgressIds = sw.port2EgressIds ∧ swS.warmHosts = sw.warmHosts ∧
            swS.nextId = sw.nextId ∧ swS.hwHostAdds = sw.hwHostAdds := by
        refine ⟨{sw with egressMap := updA sw.egressMap e.ecmpEgressId (fun oc => (EgressObjM.ecmp (markPaths gcur aff up), oc.2))}, ?_, rfl, rfl, rfl, rfl, rfl, rfl, rfl⟩
        simp [linkGo, hid, hlook]
      have hlookS : lookupA swS.egressMap e.ecmpEgressId =
          some (EgressObjM.ecmp (markF aff up g0), c0) := by
        rw [hes, lookupA_updA_self, hlook]
        simp [markPaths_eq, hmark]
      have hMS : markedRel aff up sw0.egressMap swS.egressMap := by
        intro id
        by_cases hide : id = e.ecmpEgressId
        · right
          rw [hide]
          exact ⟨g0, c0, hg0, hlookS⟩
        · have hloc : lookupA swS.egressMap id = lookupA sw.egressMap id := by
            rw [hes, lookupA_updA_ne _ _ _ _ hide]
          rw [hloc]
          exact hM id
      obtain ⟨sw1, hrun, hf1, hf2, hf3, hf4, hf5, hf6, hM1, hproc, hout⟩ :=
        ih sw0 swS hMS (fun kec2 hk2 => hG kec2 (List.mem_cons_of_mem _ hk2))
      have hheadFinal : lookupA sw1.egressMap e.ecmpEgressId =
          some (EgressObjM.ecmp (markF aff up g0), c0) := by
        by_cases hsh : ∃ kec2 ∈ rest, kec2.2.1.ecmpEgressId = e.ecmpEgressId
        · obtain ⟨kec2, hk2, hkeq⟩ := hsh
          have hpk := hproc kec2 hk2 (by rw [hkeq]; exact hid) g0 c0 (by rw [hkeq]; exact hg0)
          rw [hkeq] at hpk
          exact hpk
        · push_neg at hsh
          rw [hout e.ecmpEgressId hsh, hlookS]
      refine ⟨sw1, by rw [hstep]; exact hrun, hf1.trans hs1, hf2.trans hs2, hf3.trans hs3,
        hf4.trans hs4, hf5.trans hs5, hf6.trans hs6, hM1, ?_, ?_⟩
      · intro kec2 hk2 hne g cg hg
        rcases List.mem_cons.mp hk2 with hhd | htl
        · rw [hhd]
          rw [hhd] at hg
          rw [hg0] at hg
          have hinj := Option.some.inj hg
          have hgg2 : g0 = g := by
            have h1 : EgressObjM.ecmp g0 = EgressObjM.ecmp g := congrArg Prod.fst hinj
            injection h1
          have hcc : c0 = cg := congrArg Prod.snd hinj
          rw [← hgg2, ← hcc]
          exact hheadFinal
        · exact hproc kec2 htl hne g cg hg
      · intro id hall
        have hne : e.ecmpEgressId ≠ id := hall (k, e, c) (List.mem_cons_self _ _)
        have hS : lookupA swS.egressMap id = lookupA sw.egressMap id := by
          rw [hes, lookupA_updA_ne _ _ _ _ (fun hc => hne hc.symm)]
        rw [hout id (fun kec2 hk2 => hall kec2 (List.mem_cons_of_mem _ hk2)), hS]

theorem markF_sort (s : Finset Nat) (up : Bool) (g : List (Nat × Bool)) :
    markF (s.sort (· ≤ ·)) up g =
      g.map (fun pr => if pr.1 ∈ s then (pr.1, up) else pr) := by
  induction g with
  | nil => rfl
  | cons pr g ihg =>
    simp only [markF, List.map_cons] at ihg ⊢
    rw [ihg]
    by_cases hx : pr.1 ∈ s <;> simp [Finset.mem_sort, hx]

/-- Claim C7: `linkStateChanged(port, up)` is a no-op when no egress ids are
indexed under the port; otherwise it succeeds, changes only the egress
registry, marks on every live ECMP host's group object exactly the slots
whose egress id is indexed under the port (reachable when up, unreachable
when down), and leaves every binding not referenced as some ECMP host's group
id untouched. -/
theorem linkStateChanged_spec (sw : Sw) (port : Nat) (up : Bool)
    (hG : ∀ kec ∈ sw.ecmpHosts, kec.2.1.ecmpEgressId ≠ INVALID →
      ∃ g c, lookupA sw.egressMap kec.2.1.ecmpEgressId = some (EgressObjM.ecmp g, c)) :
    (getEgressIdsForPort sw port = ∅ → linkStateChanged sw port up = Except.ok sw) ∧
    (getEgressIdsForPort sw port ≠ ∅ →
      ∃ sw1, linkStateChanged sw port up = Except.ok sw1 ∧
        sw1.hosts = sw.hosts ∧ sw1.ecmpHosts = sw.ecmpHosts ∧
        sw1.port2EgressIds = sw.port2EgressIds ∧
        (∀ kec ∈ sw.ecmpHosts, kec.2.1.ecmpEgressId ≠ INVALID →
          ∀ g c, lookupA sw.egressMap kec.2.1.ecmpEgressId = some (EgressObjM.ecmp g, c) →
            lookupA sw1.egressMap kec.2.1.ecmpEgressId =
              some (EgressObjM.ecmp (g.map (fun pr =>
                if pr.1 ∈ getEgressIdsForPort sw port then (pr.1, up) else pr)), c)) ∧
        (∀ id, (∀ kec ∈ sw.ecmpHosts, kec.2.1.ecmpEgressId ≠ id) →
          lookupA sw1.egressMap id = lookupA sw.egressMap id)) := by
  constructor
  · intro hemp
    simp [linkStateChanged, hemp]
  · intro hne
    have hM0 : markedRel ((getEgressIdsForPort sw port).sort (· ≤ ·)) up
        sw.egressMap sw.egressMap := fun id => Or.inl rfl
    obtain ⟨sw1, hrun, hf1, hf2, hf3, hf4, hf5, hf6, hM1, hproc, hout⟩ :=
      linkGo_spec ((getEgressIdsForPort sw port).sort (· ≤ ·)) up sw.ecmpHosts sw sw hM0 hG
    refine ⟨sw1, ?_, hf1, hf2, hf3, ?_, hout⟩
    · simp only [linkStateChanged, if_neg hne]
      exact hrun
    · intro kec hk hneid g c hg
      have := hproc kec hk hneid g c hg
      rw [this, markF_sort]

/-- Witness Sw for C7: one two-path ECMP group (id 3) with path 1 indexed
under port 2. -/
theorem linkStateChanged_spec_w :
    getEgressIdsForPort {swE with
        ecmpHosts := [((0, [(1, aA), (2, aB)]), EcmpM.mk 0 [(1, aA), (2, aB)] 3 3, 1)],
        egressMap := [(3, EgressObjM.ecmp [(1, true), (5, true)], 1)],
        port2EgressIds := [(2, {1})]} 2 ≠ ∅ ∧
    (∃ sw1, linkStateChanged {swE with
        ecmpHosts := [((0, [(1, aA), (2, aB)]), EcmpM.mk 0 [(1, aA), (2, aB)] 3 3, 1)],
        egressMap := [(3, EgressObjM.ecmp [(1, true), (5, true)], 1)],
        port2EgressIds := [(2, {1})]} 2 false = Except.ok sw1 ∧
      sw1.hosts = [] ∧ lookupA sw1.egressMap 3 =
        some (EgressObjM.ecmp [(1, false), (5, true)], 1)) := by
  have hG : ∀ kec ∈ ({swE with
      ecmpHosts := [((0, [(1, aA), (2, aB)]), EcmpM.mk 0 [(1, aA), (2, aB)] 3 3, 1)],
      egressMap := [(3, EgressObjM.ecmp [(1, true), (5, true)], 1)],
      port2EgressIds := [(2, {1})]} : Sw).ecmpHosts, kec.2.1.ecmpEgressId ≠ INVALID →
      ∃ g c, lookupA ({swE with
        ecmpHosts := [((0, [(1, aA), (2, aB)]), EcmpM.mk 0 [(1, aA), (2, aB)] 3 3, 1)],
        egressMap := [(3, EgressObjM.ecmp [(1, true), (5, true)], 1)],
        port2EgressIds := [(2, {1})]} : Sw).egressMap kec.2.1.ecmpEgressId =
        some (EgressObjM.ecmp g, c) := by
    intro kec hk _
    simp only [List.mem_singleton] at hk
    subst hk
    exact ⟨[(1, true), (5, true)], 1, rfl⟩
  have hmain := (linkStateChanged_spec {swE with
      ecmpHosts := [((0, [(1, aA), (2, aB)]), EcmpM.mk 0 [(1, aA), (2, aB)] 3 3, 1)],
      egressMap := [(3, EgressObjM.ecmp [(1, true), (5, true)], 1)],
      port2EgressIds := [(2, {1})]} 2 false hG).2 (by decide)
  obtain ⟨sw1, hrun, hf1, hf2, hf3, hproc, hout⟩ := hmain
  refine ⟨by decide, sw1, hrun, hf1, ?_⟩
  have := hproc ((0, [(1, aA), (2, aB)]), EcmpM.mk 0 [(1, aA), (2, aB)] 3 3, 1)
    (List.mem_singleton.mpr rfl) (by decide) [(1, true), (5, true)] 1 rfl
  rw [this]
  norm_num
  decide

/-! ## C3 and C5: ECMP construction, rollback, and shape -/

theorem eraseA_subset [DecidableEq K] (l : List (K × V)) (k : K) :
    ∀ p ∈ eraseA l k, p ∈ l := by
  induction l with
  | nil => simp [eraseA]
  | cons q rest ih =>
    intro p hp
    by_cases hq : q.1 = k
    · simp only [eraseA, if_pos hq] at hp
      exact List.mem_cons_of_mem _ (ih p hp)
    · simp only [eraseA, if_neg hq] at hp
      rcases List.mem_cons.mp hp with h1 | h2
      · rw [h1]; exact List.mem_cons_self _ _
      · exact List.mem_cons_of_mem _ (ih p h2)

theorem liveEids_append (ds1 ds2 : List ((Nat × Addr) × MemDone)) :
    liveEids (ds1 ++ ds2) = liveEids ds1 ++ liveEids ds2 := by
  induction ds1 with
  | nil => rfl
  | cons d ds ih =>
    obtain ⟨nh, k⟩ := d
    cases k <;> simp [liveEids, ih]

theorem liveEids_mem (ds : List ((Nat × Addr) × MemDone)) (id : Nat) :
    id ∈ liveEids ds → ∃ nh h, (nh, MemDone.fresh h) ∈ ds ∧ h.egressId = id := by
  induction ds with
  | nil => simp [liveEids]
  | cons d ds ih =>
    obtain ⟨nh, k⟩ := d
    cases k with
    | shared h0 c0 =>
      intro hm
      obtain ⟨nh2, h2, hmem, he⟩ := ih hm
      exact ⟨nh2, h2, List.mem_cons_of_mem _ hmem, he⟩
    | fresh h =>
      intro hm
      rcases List.mem_cons.mp hm with h1 | h2
      · exact ⟨nh, h, List.mem_cons_self _ _, h1.symm⟩
      · obtain ⟨nh2, h2, hmem, he⟩ := ih h2
        exact ⟨nh2, h2, List.mem_cons_of_mem _ hmem, he⟩
    | freshAbort h =>
      intro hm
      obtain ⟨nh2, h2, hmem, he⟩ := ih hm
      exact ⟨nh2, h2, List.mem_cons_of_mem _ hmem, he⟩

/-- Joining two disjoint nodup decompositions. -/
theorem nodupQuad {A : Type u} (a b c d : List A)
    (h1 : (a ++ c).Nodup) (h2 : (b ++ d).Nodup)
    (hx : ∀ x ∈ a ++ c, x ∉ b ++ d) : ((a ++ b) ++ (c ++ d)).Nodup := by
  have ha : a.Nodup := h1.of_append_left
  have hc : c.Nodup := h1.of_append_right
  have hb : b.Nodup := h2.of_append_left
  have hd : d.Nodup := h2.of_append_right
  have hac : List.Disjoint a c := List.disjoint_of_nodup_append h1
  have hbd : List.Disjoint b d := List.disjoint_of_nodup_append h2
  refine List.Nodup.append (List.Nodup.append ha hb ?_) (List.Nodup.append hc hd ?_) ?_
  · intro x hxa hxb
    exact hx x (List.mem_append_left _ hxa) (List.mem_append_left _ hxb)
  · intro x hxc hxd
    exact hx x (List.mem_append_right _ hxc) (List.mem_append_right _ hxd)
  · intro x hxab hxcd
    rcases List.mem_append.mp hxab with hxa | hxb
    · rcases List.mem_append.mp hxcd with hxc | hxd
      · exact hac hxa hxc
      · exact hx x (List.mem_append_left _ hxa) (List.mem_append_right _ hxd)
    · rcases List.mem_append.mp hxcd with hxc | hxd
      · exact hx x (List.mem_append_right _ hxc) (List.mem_append_left _ hxb)
      · exact hbd hxb hxd

/-- `derefBcmHost` on a key held with at least two references: decrement only. -/
theorem derefBcmHost_shared (sw : Sw) (k : HKey) (h : BcmHostM) (c : Nat)
    (hl : lookupA sw.hosts k = some (h, c)) (hc : 2 ≤ c) :
    derefBcmHost sw k =
      Except.ok ({sw with hosts := updA sw.hosts k (fun hc2 => (hc2.1, hc2.2 - 1))}, some h) := by
  have h0 : ¬ c = 0 := by omega
  have h1 : ¬ c = 1 := by omega
  simp [derefBcmHost, hl, h0, h1]

/-- `derefBcmHost` on a last reference to a programmed host whose egress is
registered at count 1: both registries drop their entries, one hardware
delete. -/
theorem derefBcmHost_last_added (sw : Sw) (k : HKey) (h : BcmHostM) (obj : EgressObjM)
    (hl : lookupA sw.hosts k = some (h, 1)) (ha : h.added = true)
    (he : lookupA sw.egressMap h.egressId = some (obj, 1)) :
    derefBcmHost sw k =
      Except.ok ({sw with hosts := eraseA sw.hosts k, egressMap := eraseA sw.egressMap h.egressId, hwHostDels := sw.hwHostDels + 1}, none) := by
  simp [derefBcmHost, hl, bcmHostDtor, ha, derefEgress, he]

/-- `derefBcmHost` on a last reference to a never-programmed host: the host
registry drops the entry, nothing else happens. -/
theorem derefBcmHost_last_unadded (sw : Sw) (k : HKey) (h : BcmHostM)
    (hl : lookupA sw.hosts k = some (h, 1)) (ha : h.added = false) :
    derefBcmHost sw k = Except.ok ({sw with hosts := eraseA sw.hosts k}, none) := by
  simp [derefBcmHost, hl, bcmHostDtor, ha]

theorem liveEids_of_mem (ds : List ((Nat × Addr) × MemDone)) (nh : Nat × Addr)
    (h : BcmHostM) (hm : (nh, MemDone.fresh h) ∈ ds) : h.egressId ∈ liveEids ds := by
  induction ds with
  | nil => simp at hm
  | cons d ds ih =>
    rcases List.mem_cons.mp hm with h1 | h2
    · rw [← h1]
      simp [liveEids]
    · obtain ⟨nh2, k2⟩ := d
      cases k2 <;> simp [liveEids, ih h2]

theorem entryOfDone_mono (sw0 sw swN : Sw) (vrf : Nat) (X XN : List Nat)
    (d : (Nat × Addr) × MemDone)
    (hh : lookupA swN.hosts (vrf, d.1.2) = lookupA sw.hosts (vrf, d.1.2))
    (he : ∀ id ∈ liveEids [d], lookupA swN.egressMap id = lookupA sw.egressMap id)
    (hX : ∀ x ∈ X, x ∈ XN)
    (hd : entryOfDone sw0 sw vrf X d) : entryOfDone sw0 swN vrf XN d := by
  obtain ⟨nh, k⟩ := d
  cases k with
  | shared h0 c0 =>
    refine ⟨hd.1, hd.2.1, hd.2.2.1, ?_⟩
    rw [hh]
    exact hd.2.2.2
  | fresh h =>
    refine ⟨hd.1, ?_, hd.2.2.1, ?_⟩
    · rw [hh]
      exact hd.2.1
    · rw [he h.egressId (by simp [liveEids])]
      exact hd.2.2.2
  | freshAbort h =>
    refine ⟨hd.1, ?_, hd.2.2.1, fun hne => hX _ (hd.2.2.2 hne)⟩
    rw [hh]
    exact hd.2.1

/-- Extending the construction invariant by one processed member. -/
theorem membersInv_snoc (sw0 : Sw) (vrf : Nat) (ds : List ((Nat × Addr) × MemDone))
    (X : List Nat) (sw : Sw) (nh : Nat × Addr) (dk : MemDone) (X1 : List Nat) (swN : Sw)
    (hInv : membersInv sw0 vrf ds X sw)
    (hkey : nh.2 ∉ ds.map (fun d => d.1.2))
    (hnids : (liveEids [(nh, dk)] ++ X1).Nodup)
    (hbound : ∀ id ∈ liveEids [(nh, dk)] ++ X1, sw.nextId ≤ id ∧ id < swN.nextId)
    (hhostsOther : ∀ k, k ≠ (vrf, nh.2) → lookupA swN.hosts k = lookupA sw.hosts k)
    (hegrOther : ∀ id, id ∉ liveEids [(nh, dk)] ++ X1 →
      lookupA swN.egressMap id = lookupA sw.egressMap id)
    (hentry : entryOfDone sw0 swN vrf (X ++ X1) (nh, dk))
    (hecmp : swN.ecmpHosts = sw.ecmpHosts) (hport : swN.port2EgressIds = sw.port2EgressIds)
    (hnext : sw.nextId ≤ swN.nextId) (hwfN : wfSw swN) :
    membersInv sw0 vrf (ds ++ [(nh, dk)]) (X ++ X1) swN := by
  obtain ⟨hents, hkeys, hlive, hbounds, hhosts, hegr, hec, hpo, hmono, hwf⟩ := hInv
  have holdBound : ∀ id ∈ liveEids ds ++ X, id < sw.nextId := fun id hm => (hbounds id hm).2
  have hnotNew : ∀ id ∈ liveEids ds ++ X, id ∉ liveEids [(nh, dk)] ++ X1 := by
    intro id hm hmn
    have h1 := holdBound id hm
    have h2 := (hbound id hmn).1
    omega
  refine ⟨?_, ?_, ?_, ?_, ?_, ?_, hecmp.trans hec, hport.trans hpo,
    le_trans hmono hnext, hwfN⟩
  · intro d hd
    rcases List.mem_append.mp hd with hold | hsing
    · refine entryOfDone_mono sw0 sw swN vrf X (X ++ X1) d ?_ ?_
        (fun x hx => List.mem_append_left _ hx) (hents d hold)
      · refine hhostsOther _ (fun hc => ?_)
        have hdm : d.1.2 ∈ ds.map (fun d2 => d2.1.2) := List.mem_map_of_mem _ hold
        have h2 : d.1.2 = nh.2 := congrArg (fun p => p.2) hc
        rw [h2] at hdm
        exact hkey hdm
      · intro id hid
        refine hegrOther id (fun hmn => ?_)
        obtain ⟨nh2, h2, hm2, he2⟩ := liveEids_mem [d] id hid
        have hm2d : (nh2, MemDone.fresh h2) = d := by
          rcases List.mem_singleton.mp hm2 with h
          exact h
        have hidlive : id ∈ liveEids ds := by
          rw [← he2]
          exact liveEids_of_mem ds nh2 h2 (hm2d ▸ hold)
        exact hnotNew id (List.mem_append_left _ hidlive) hmn
    · rw [List.mem_singleton.mp hsing]
      exact hentry
  · rw [List.map_append]
    refine List.nodup_append.2 ⟨hkeys, List.nodup_singleton _, ?_⟩
    intro x hx hx2
    simp only [List.map_cons, List.map_nil, List.mem_singleton] at hx2
    rw [hx2] at hx
    exact hkey hx
  · rw [liveEids_append]
    exact nodupQuad _ _ _ _ hlive hnids hnotNew
  · intro id hm
    rw [liveEids_append] at hm
    have hcases : id ∈ liveEids ds ++ X ∨ id ∈ liveEids [(nh, dk)] ++ X1 := by
      rcases List.mem_append.mp hm with h1 | h2
      · rcases List.mem_append.mp h1 with ha | hb
        · exact Or.inl (List.mem_append_left _ ha)
        · exact Or.inr (List.mem_append_left _ hb)
      · rcases List.mem_append.mp h2 with ha | hb
        · exact Or.inl (List.mem_append_right _ ha)
        · exact Or.inr (List.mem_append_right _ hb)
    rcases hcases with hold | hnew
    · have := hbounds id hold
      omega
    · have := hbound id hnew
      omega
  · intro k hk
    have hknh : k ≠ (vrf, nh.2) := by
      intro hc
      exact hk ((nh, dk)) (List.mem_append_right _ (List.mem_singleton.mpr rfl)) hc.symm
    rw [hhostsOther k hknh]
    exact hhosts k (fun d hd => hk d (List.mem_append_left _ hd))
  · intro id hidl hidX
    rw [liveEids_append] at hidl
    have hnot1 : id ∉ liveEids [(nh, dk)] ++ X1 := by
      intro hc
      rcases List.mem_append.mp hc with h1 | h2
      · exact hidl (List.mem_append_right _ h1)
      · exact hidX (List.mem_append_right _ h2)
    rw [hegrOther id hnot1]
    refine hegr id (fun hc => hidl (List.mem_append_left _ hc))
      (fun hc => hidX (List.mem_append_left _ hc))

theorem wfSw_cons (swA swB : Sw) (obj : EgressObjM) (c : Nat)
    (hn : swB.nextId = swA.nextId + 1)
    (hm : swB.egressMap = (swA.nextId, obj, c) :: swA.egressMap)
    (hwf : wfSw swA) : wfSw swB := by
  constructor
  · rw [hn]
    omega
  · intro p hp
    rw [hm] at hp
    rw [hn]
    rcases List.mem_cons.mp hp with h1 | h2
    · rw [h1]
      omega
    · have := hwf.2 p h2
      omega

theorem membersInv_nil (sw0 : Sw) (vrf : Nat) (hwf : wfSw sw0) :
    membersInv sw0 vrf [] [] sw0 :=
  ⟨by simp, List.nodup_nil, by simp [liveEids], by simp [liveEids],
    fun _ _ => rfl, fun _ _ _ => rfl, rfl, rfl, le_refl _, hwf⟩

/-- All outcomes of CPU-punt-programming a fresh, never-programmed host: a
fatal warm-boot mismatch; a thrown hardware failure (either before any state
change, or after the created egress object was registered — the latter only
when the hardware host-add is what failed); or success with the egress
registered and the host marked added. -/
theorem programToCPU_fresh_cases (sw : Sw) (h : BcmHostM) (intf : Nat) (hE hA : Bool)
    (hinv : h.egressId = INVALID) (hadd : h.added = false) (hport : h.port = 0)
    (hwf : wfSw sw) :
    programToCPU sw h intf hE hA = ProgRes.fatal ∨
    (∃ h1 sw1, programToCPU sw h intf hE hA = ProgRes.thrown h1 sw1 ∧
      h1.added = false ∧ h1.vrf = h.vrf ∧ h1.addr = h.addr ∧
      sw1.hosts = sw.hosts ∧ sw1.ecmpHosts = sw.ecmpHosts ∧
      sw1.port2EgressIds = sw.port2EgressIds ∧ wfSw sw1 ∧ sw.nextId ≤ sw1.nextId ∧
      ((h1.egressId = INVALID ∧ sw1.egressMap = sw.egressMap ∧ sw1.nextId = sw.nextId) ∨
       (h1.egressId = sw.nextId ∧
         sw1.egressMap = (sw.nextId, EgressObjM.simple, 1) :: sw.egressMap ∧
         sw1.nextId = sw.nextId + 1)) ∧
      (hA = true → h1.egressId = INVALID ∧ sw1.egressMap = sw.egressMap ∧
        sw1.nextId = sw.nextId)) ∨
    (∃ sw1, programToCPU sw h intf hE hA =
        ProgRes.ok {h with egressId := sw.nextId, added := true} sw1 ∧
      sw1.hosts = sw.hosts ∧ sw1.ecmpHosts = sw.ecmpHosts ∧
      sw1.port2EgressIds = sw.port2EgressIds ∧
      sw1.egressMap = (sw.nextId, EgressObjM.simple, 1) :: sw.egressMap ∧
      sw1.nextId = sw.nextId + 1 ∧ wfSw sw1) := by
  have hmiss : lookupA sw.egressMap sw.nextId = none := wf_lookup_fresh hwf (le_refl _)
  obtain ⟨v, a, eg, ad, po⟩ := h
  simp only at hinv hadd hport
  subst hinv hadd hport
  rcases hE with _ | _
  · -- egress hardware write fails before any state change
    right
    left
    refine ⟨BcmHostM.mk v a INVALID false 0, sw, ?_, rfl, rfl, rfl, rfl, rfl, rfl, hwf,
      le_refl _, Or.inl ⟨rfl, rfl, rfl⟩, fun _ => ⟨rfl, rfl, rfl⟩⟩
    simp [programToCPU, bcmHostProgram]
  · rcases hwarm : lookupA sw.warmHosts (v, a) with _ | w
    · rcases hA with _ | _
      · -- hardware host-add fails after the egress was registered
        right
        left
        refine ⟨BcmHostM.mk v a sw.nextId false 0,
          {sw with egressMap := (sw.nextId, EgressObjM.simple, 1) :: sw.egressMap, nextId := sw.nextId + 1},
          ?_, rfl, rfl, rfl, rfl, rfl, rfl, wfSw_cons sw _ EgressObjM.simple 1 rfl rfl hwf,
          by show sw.nextId ≤ sw.nextId + 1; omega, Or.inr ⟨rfl, rfl, rfl⟩,
          fun hc => by simp at hc⟩
        simp [programToCPU, bcmHostProgram, insertBcmEgress, hmiss, addBcmHost, hwarm]
      · -- success via a genuine hardware add
        right
        right
        refine ⟨{sw with egressMap := (sw.nextId, EgressObjM.simple, 1) :: sw.egressMap, nextId := sw.nextId + 1, hwHostAdds := sw.hwHostAdds + 1},
          ?_, rfl, rfl, rfl, rfl, rfl, wfSw_cons sw _ EgressObjM.simple 1 rfl rfl hwf⟩
        simp [programToCPU, bcmHostProgram, insertBcmEgress, hmiss, addBcmHost, hwarm,
          updatePortEgressMapping]
    · by_cases heqv : equivalentHosts
        (withMultipath (initHostCommon (BcmHostM.mk v a sw.nextId false 0)) false) w = true
      · -- warm-boot hit that matches: acknowledged, no hardware add
        right
        right
        refine ⟨{sw with egressMap := (sw.nextId, EgressObjM.simple, 1) :: sw.egressMap, nextId := sw.nextId + 1, warmClaimed := fun k => if k = (v, a) then sw.warmClaimed k + 1 else sw.warmClaimed k},
          ?_, rfl, rfl, rfl, rfl, rfl, wfSw_cons sw _ EgressObjM.simple 1 rfl rfl hwf⟩
        simp [programToCPU, bcmHostProgram, insertBcmEgress, hmiss, addBcmHost, hwarm, heqv,
          updatePortEgressMapping]
      · -- warm-boot hit that differs: fatal
        left
        simp [programToCPU, bcmHostProgram, insertBcmEgress, hmiss, addBcmHost, hwarm, heqv]

/-- Running the `SCOPE_FAIL` rollback from any loop state restores the host
registry exactly and the egress registry except at the orphaned ids `X`. -/
theorem rollback_restores (sw0 : Sw) (vrf : Nat) (hwf0 : wfSw sw0) :
    ∀ (ds : List ((Nat × Addr) × MemDone)) (X : List Nat) (sw : Sw),
    membersInv sw0 vrf ds X sw →
    ∃ sw2, rollbackMembers sw vrf (ds.map (fun d => d.1)) = Except.ok sw2 ∧
      (∀ k, lookupA sw2.hosts k = lookupA sw0.hosts k) ∧
      (∀ id, id ∉ X → lookupA sw2.egressMap id = lookupA sw0.egressMap id) ∧
      (∀ id ∈ X, lookupA sw2.egressMap id = lookupA sw.egressMap id) ∧
      sw2.ecmpHosts = sw0.ecmpHosts ∧ sw2.port2EgressIds = sw0.port2EgressIds := by
  intro ds
  induction ds with
  | nil =>
    intro X sw hInv
    obtain ⟨_, _, _, _, hhosts, hegr, hec, hpo, _, _⟩ := hInv
    refine ⟨sw, rfl, ?_, ?_, fun id _ => rfl, hec, hpo⟩
    · intro k
      exact hhosts k (by simp)
    · intro id hX
      exact hegr id (by simp [liveEids]) hX
  | cons d ds ih =>
    intro X sw hInv
    obtain ⟨nh, dk⟩ := d
    obtain ⟨hents, hkeys, hlive, hbounds, hhosts, hegr, hec, hpo, hmono, hwf⟩ := hInv
    have hent := hents (nh, dk) (List.mem_cons_self _ _)
    have hkeysd : nh.2 ∉ ds.map (fun d2 => d2.1.2) := by
      simp only [List.map_cons, List.nodup_cons] at hkeys
      exact hkeys.1
    have hkeyne : ∀ d2 ∈ ds, (vrf, d2.1.2) ≠ (vrf, nh.2) := by
      intro d2 hd2 hc
      have h2 : d2.1.2 = nh.2 := congrArg (fun p => p.2) hc
      exact hkeysd (h2 ▸ List.mem_map_of_mem _ hd2)
    have hkeystl : (ds.map (fun d2 => d2.1.2)).Nodup := by
      simp only [List.map_cons, List.nodup_cons] at hkeys
      exact hkeys.2
    cases dk with
    | shared h0 c0 =>
      obtain ⟨hs0, hc0, hadd0, hcur⟩ := hent
      have hderef := derefBcmHost_shared sw (vrf, nh.2) h0 (c0 + 1) hcur (by omega)
      have hstep : rollbackMembers sw vrf
          (((nh, MemDone.shared h0 c0) :: ds).map (fun d2 => d2.1)) =
          rollbackMembers {sw with hosts := updA sw.hosts (vrf, nh.2) (fun hc2 => (hc2.1, hc2.2 - 1))} vrf (ds.map (fun d2 => d2.1)) := by
        simp [rollbackMembers, hderef]
      have hInvA : membersInv sw0 vrf ds X
          {sw with hosts := updA sw.hosts (vrf, nh.2) (fun hc2 => (hc2.1, hc2.2 - 1))} := by
        refine ⟨?_, hkeystl, ?_, ?_, ?_, ?_, hec, hpo, hmono, hwf⟩
        · intro d2 hd2
          refine entryOfDone_mono sw0 sw _ vrf X X d2 ?_ (fun _ _ => rfl) (fun x hx => hx)
            (hents d2 (List.mem_cons_of_mem _ hd2))
          exact lookupA_updA_ne _ _ _ _ (hkeyne d2 hd2)
        · simpa [liveEids] using hlive
        · intro id hm
          have := hbounds id (by simpa [liveEids] using hm)
          exact this
        · intro k hk
          by_cases hkk : k = (vrf, nh.2)
          · rw [hkk, lookupA_updA_self, hcur, hs0]
            simp
          · rw [lookupA_updA_ne _ _ _ _ hkk]
            refine hhosts k ?_
            intro d2 hd2
            rcases List.mem_cons.mp hd2 with h1 | h2
            · rw [h1]
              exact fun hc => hkk hc.symm
            · exact hk d2 h2
        · intro id h1 h2
          exact hegr id (by simpa [liveEids] using h1) h2
      obtain ⟨sw2, hrun, hh2, he2, hx2, hec2, hpo2⟩ := ih X _ hInvA
      refine ⟨sw2, by rw [hstep]; exact hrun, hh2, he2, ?_, hec2, hpo2⟩
      intro id hid
      rw [hx2 id hid]
    | fresh h =>
      obtain ⟨hs0, hcur, hadd, hegrcur⟩ := hent
      have hlivec : h.egressId ∉ liveEids ds ++ X ∧ (liveEids ds ++ X).Nodup := by
        have : (h.egressId :: (liveEids ds ++ X)).Nodup := by
          simpa [liveEids] using hlive
        exact ⟨(List.nodup_cons.mp this).1, (List.nodup_cons.mp this).2⟩
      have hderef := derefBcmHost_last_added sw (vrf, nh.2) h EgressObjM.simple hcur hadd hegrcur
      have hstep : rollbackMembers sw vrf
          (((nh, MemDone.fresh h) :: ds).map (fun d2 => d2.1)) =
          rollbackMembers {sw with hosts := eraseA sw.hosts (vrf, nh.2), egressMap := eraseA sw.egressMap h.egressId, hwHostDels := sw.hwHostDels + 1} vrf (ds.map (fun d2 => d2.1)) := by
        simp [rollbackMembers, hderef]
      have hbnd : sw0.nextId ≤ h.egressId := by
        have := hbounds h.egressId (by simp [liveEids])
        omega
      have hInvA : membersInv sw0 vrf ds X
          {sw with hosts := eraseA sw.hosts (vrf, nh.2), egressMap := eraseA sw.egressMap h.egressId, hwHostDels := sw.hwHostDels + 1} := by
        refine ⟨?_, hkeystl, hlivec.2, ?_, ?_, ?_, hec, hpo, hmono, ?_⟩
        · intro d2 hd2
          refine entryOfDone_mono sw0 sw _ vrf X X d2 ?_ ?_ (fun x hx => hx)
            (hents d2 (List.mem_cons_of_mem _ hd2))
          · exact lookupA_eraseA_ne _ _ _ (hkeyne d2 hd2)
          · intro id hid
            obtain ⟨nh2, h2, hm2, he2⟩ := liveEids_mem [d2] id hid
            have hm2d : (nh2, MemDone.fresh h2) = d2 := List.mem_singleton.mp hm2
            have hidlive : id ∈ liveEids ds := by
              rw [← he2]
              exact liveEids_of_mem ds nh2 h2 (hm2d ▸ hd2)
            have hne : id ≠ h.egressId := by
              intro hc
              exact hlivec.1 (hc ▸ List.mem_append_left _ hidlive)
            exact lookupA_eraseA_ne _ _ _ hne
        · intro id hm
          have := hbounds id (by simp only [liveEids] at hm ⊢; exact List.mem_append.mpr (by rcases List.mem_append.mp hm with h1 | h2; exact Or.inl (List.mem_cons_of_mem _ h1); exact Or.inr h2))
          exact this
        · intro k hk
          by_cases hkk : k = (vrf, nh.2)
          · rw [hkk, lookupA_eraseA_self, hs0]
          · rw [lookupA_eraseA_ne _ _ _ hkk]
            refine hhosts k ?_
            intro d2 hd2
            rcases List.mem_cons.mp hd2 with h1 | h2
            · rw [h1]
              exact fun hc => hkk hc.symm
            · exact hk d2 h2
        · intro id h1 h2
          by_cases hide : id = h.egressId
          · rw [hide, lookupA_eraseA_self, wf_lookup_fresh hwf0 hbnd]
          · rw [lookupA_eraseA_ne _ _ _ hide]
            refine hegr id ?_ h2
            simp only [liveEids, List.mem_cons]
            intro hc
            rcases hc with hc1 | hc2
            · exact hide hc1
            · exact h1 hc2
        · exact ⟨hwf.1, fun p hp => hwf.2 p (eraseA_subset _ _ p hp)⟩
      obtain ⟨sw2, hrun, hh2, he2, hx2, hec2, hpo2⟩ := ih X _ hInvA
      refine ⟨sw2, by rw [hstep]; exact hrun, hh2, he2, ?_, hec2, hpo2⟩
      intro id hid
      rw [hx2 id hid]
      have hne : id ≠ h.egressId := by
        intro hc
        exact hlivec.1 (hc ▸ List.mem_append_right _ hid)
      exact lookupA_eraseA_ne _ _ _ hne
    | freshAbort h =>
      obtain ⟨hs0, hcur, hadd, horph⟩ := hent
      have hderef := derefBcmHost_last_unadded sw (vrf, nh.2) h hcur hadd
      have hstep : rollbackMembers sw vrf
          (((nh, MemDone.freshAbort h) :: ds).map (fun d2 => d2.1)) =
          rollbackMembers {sw with hosts := eraseA sw.hosts (vrf, nh.2)} vrf (ds.map (fun d2 => d2.1)) := by
        simp [rollbackMembers, hderef]
      have hInvA : membersInv sw0 vrf ds X {sw with hosts := eraseA sw.hosts (vrf, nh.2)} := by
        refine ⟨?_, hkeystl, ?_, ?_, ?_, ?_, hec, hpo, hmono, hwf⟩
        · intro d2 hd2
          refine entryOfDone_mono sw0 sw _ vrf X X d2 ?_ (fun _ _ => rfl) (fun x hx => hx)
            (hents d2 (List.mem_cons_of_mem _ hd2))
          exact lookupA_eraseA_ne _ _ _ (hkeyne d2 hd2)
        · simpa [liveEids] using hlive
        · intro id hm
          exact hbounds id (by simpa [liveEids] using hm)
        · intro k hk
          by_cases hkk : k = (vrf, nh.2)
          · rw [hkk, lookupA_eraseA_self, hs0]
          · rw [lookupA_eraseA_ne _ _ _ hkk]
            refine hhosts k ?_
            intro d2 hd2
            rcases List.mem_cons.mp hd2 with h1 | h2
            · rw [h1]
              exact fun hc => hkk hc.symm
            · exact hk d2 h2
        · intro id h1 h2
          exact hegr id (by simpa [liveEids] using h1) h2
      obtain ⟨sw2, hrun, hh2, he2, hx2, hec2, hpo2⟩ := ih X _ hInvA
      refine ⟨sw2, by rw [hstep]; exact hrun, hh2, he2, ?_, hec2, hpo2⟩
      intro id hid
      rw [hx2 id hid]

theorem nodup_shift {A : Type u} (x : A) (a b : List A)
    (h : (x :: (a ++ b)).Nodup) : (a ++ (b ++ [x])).Nodup := by
  obtain ⟨hx, hab⟩ := List.nodup_cons.mp h
  have ha : a.Nodup := hab.of_append_left
  have hb : b.Nodup := hab.of_append_right
  have hdisj : List.Disjoint a b := List.disjoint_of_nodup_append hab
  refine List.Nodup.append ha (List.Nodup.append hb (List.nodup_singleton x) ?_) ?_
  · intro y hyb hyx
    rw [List.mem_singleton.mp hyx] at hyb
    exact hx (List.mem_append_right _ hyb)
  · intro y hya hybx
    rcases List.mem_append.mp hybx with hyb | hyx
    · exact hdisj hya hyb
    · rw [List.mem_singleton.mp hyx] at hya
      exact hx (List.mem_append_left _ hya)

/-- Main loop lemma for `BcmEcmpHost` construction: a completed loop extends
the invariant with no orphans; a thrown loop extends it with at most the one
orphan produced by a failed hardware host-add. -/
theorem ecmpLoop_spec (sw0 : Sw) (vrf : Nat) (orc : Oracles)
    (hall : hostsAllProgrammed sw0) (hpos : countsPositive sw0) :
    ∀ (rest : List (Nat × Addr)) (ds : List ((Nat × Addr) × MemDone))
      (i : Nat) (sw : Sw) (paths : List Nat),
    membersInv sw0 vrf ds [] sw →
    (rest.map (fun nh => nh.2) ++ ds.map (fun d => d.1.2)).Nodup →
    (∀ sw1 prog1 paths1,
      ecmpLoop vrf orc rest i sw (ds.map (fun d => d.1)) paths = LoopRes.ok sw1 prog1 paths1 →
      ∃ dsr, prog1 = ((ds ++ dsr).map (fun d => d.1)) ∧ dsr.map (fun d => d.1) = rest ∧
        membersInv sw0 vrf (ds ++ dsr) [] sw1 ∧
        paths1 = paths ++ dsr.map (fun d => doneEid d.2)) ∧
    (∀ sw1 prog1,
      ecmpLoop vrf orc rest i sw (ds.map (fun d => d.1)) paths = LoopRes.thrownAt sw1 prog1 →
      ∃ dsr X1, prog1 = ((ds ++ dsr).map (fun d => d.1)) ∧
        membersInv sw0 vrf (ds ++ dsr) X1 sw1 ∧
        ((∀ j, orc.failAdd j = false) → X1 = [])) := by
  intro rest
  induction rest with
  | nil =>
    intro ds i sw paths hInv hnd
    constructor
    · intro sw1 prog1 paths1 heq
      simp only [ecmpLoop] at heq
      obtain ⟨h1, h2, h3⟩ := LoopRes.ok.inj heq
      refine ⟨[], by simp [h2.symm], rfl, by simpa using h1 ▸ hInv, by simp [h3.symm]⟩
    · intro sw1 prog1 heq
      simp only [ecmpLoop] at heq
      exact absurd heq (by intro hc; cases hc)
  | cons nh rest ih =>
    intro ds i sw paths hInv hnd
    have hndc : (nh.2 :: (rest.map (fun nh2 => nh2.2) ++ ds.map (fun d => d.1.2))).Nodup := by
      simpa using hnd
    obtain ⟨hnh2, hndtl⟩ := List.nodup_cons.mp hndc
    have hnh2ds : nh.2 ∉ ds.map (fun d => d.1.2) :=
      fun hc => hnh2 (List.mem_append_right _ hc)
    have hnh2rest : nh.2 ∉ rest.map (fun nh2 => nh2.2) :=
      fun hc => hnh2 (List.mem_append_left _ hc)
    have hnin : nh ∉ ds.map (fun d => d.1) := by
      intro hc
      refine hnh2ds ?_
      have : nh.2 ∈ (ds.map (fun d => d.1)).map (fun p => p.2) := List.mem_map_of_mem _ hc
      rw [List.map_map] at this
      exact this
    have hkeyne : ∀ d2 ∈ ds, (vrf, d2.1.2) ≠ (vrf, nh.2) := by
      intro d2 hd2 hc
      have h2 : d2.1.2 = nh.2 := congrArg (fun p => p.2) hc
      exact hnh2ds (h2 ▸ List.mem_map_of_mem _ hd2)
    obtain ⟨hents, hkeys, hlive, hbounds, hhosts, hegr, hec, hpo, hmono, hwf⟩ := hInv
    have hInvB : membersInv sw0 vrf ds [] sw :=
      ⟨hents, hkeys, hlive, hbounds, hhosts, hegr, hec, hpo, hmono, hwf⟩
    have hcomp : lookupA sw.hosts (vrf, nh.2) = lookupA sw0.hosts (vrf, nh.2) :=
      hhosts (vrf, nh.2) hkeyne
    rcases hlk : lookupA sw0.hosts (vrf, nh.2) with _ | hc0
    · -- fresh member
      rw [hlk] at hcomp
      have hstep0 : ecmpLoop vrf orc (nh :: rest) i sw (ds.map (fun d => d.1)) paths =
          (match programToCPU {sw with hosts := ((vrf, nh.2), { vrf := vrf, addr := nh.2, egressId := INVALID, added := false, port := 0 }, 1) :: sw.hosts} { vrf := vrf, addr := nh.2, egressId := INVALID, added := false, port := 0 } nh.1 (!orc.failEgr i) (!orc.failAdd i) with
          | ProgRes.ok h1 sw2 =>
            ecmpLoop vrf orc rest (i + 1)
              {sw2 with hosts := updA sw2.hosts (vrf, nh.2) (fun hc2 => (h1, hc2.2))}
              (ds.map (fun d => d.1) ++ [nh]) (paths ++ [h1.egressId])
          | ProgRes.thrown h1 sw2 =>
            LoopRes.thrownAt {sw2 with hosts := updA sw2.hosts (vrf, nh.2) (fun hc2 => (h1, hc2.2))} (ds.map (fun d => d.1) ++ [nh])
          | ProgRes.fatal => LoopRes.fatal) := by
        simp [ecmpLoop, hnin, incRefOrCreateBcmHost, incRefOrCreateT, hcomp, isProgrammed]
      have hwfc : wfSw {sw with hosts := ((vrf, nh.2), { vrf := vrf, addr := nh.2, egressId := INVALID, added := false, port := 0 }, 1) :: sw.hosts} := hwf
      rcases programToCPU_fresh_cases
          {sw with hosts := ((vrf, nh.2), { vrf := vrf, addr := nh.2, egressId := INVALID, added := false, port := 0 }, 1) :: sw.hosts}
          { vrf := vrf, addr := nh.2, egressId := INVALID, added := false, port := 0 }
          nh.1 (!orc.failEgr i) (!orc.failAdd i) rfl rfl rfl hwfc
        with hfat | ⟨h1, sw2, hprog, hadd1, hvrf1, haddr1, hh2, he2, hp2, hwf2, hnx2, hdisj, hAcase⟩ |
          ⟨sw2, hprog, hh2, he2, hp2, hem2, hnx2, hwf2⟩
      · -- fatal: both outcomes vacuous
        rw [hfat] at hstep0
        constructor
        · intro sw1 prog1 paths1 heq
          rw [hstep0] at heq
          cases heq
        · intro sw1 prog1 heq
          rw [hstep0] at heq
          cases heq
      · -- thrown: the exception escapes with the member recorded
        rw [hprog] at hstep0
        have hh2c : sw2.hosts = ((vrf, nh.2), { vrf := vrf, addr := nh.2, egressId := INVALID, added := false, port := 0 }, 1) :: sw.hosts := hh2
        have hupd : updA sw2.hosts (vrf, nh.2) (fun hc2 => (h1, hc2.2)) =
            ((vrf, nh.2), h1, 1) :: sw.hosts := by
          rw [hh2c]
          simp [updA, updA_not_mem sw.hosts (vrf, nh.2) _ hcomp]
        constructor
        · intro sw1 prog1 paths1 heq
          rw [hstep0] at heq
          cases heq
        · intro sw1 prog1 heq
          rw [hstep0] at heq
          obtain ⟨h1eq, h2eq⟩ := LoopRes.thrownAt.inj heq
          set X1 : List Nat := if h1.egressId = INVALID then [] else [h1.egressId] with hX1
          refine ⟨[(nh, MemDone.freshAbort h1)], X1, ?_, ?_, ?_⟩
          · rw [← h2eq]
            simp
          · have hsnoc := membersInv_snoc sw0 vrf ds [] sw nh (MemDone.freshAbort h1) X1
              sw1 hInvB hnh2ds ?_ ?_ ?_ ?_ ?_ ?_ ?_ ?_ ?_
            · simpa using hsnoc
            · rcases hdisj with ⟨hinv1, _, _⟩ | ⟨hval1, _, _⟩
              · simp [liveEids, hX1, hinv1]
              · have : ¬ h1.egressId = INVALID := by
                  rw [hval1]
                  have := hwf.1
                  simp [INVALID]
                  omega
                simp [liveEids, hX1, this]
            · intro id hm
              rcases hdisj with ⟨hinv1, _, _⟩ | ⟨hval1, hem1, hnn1⟩
              · simp [liveEids, hX1, hinv1] at hm
              · have hval1c : h1.egressId = sw.nextId := hval1
                have hnn1c : sw2.nextId = sw.nextId + 1 := hnn1
                have hne : ¬ h1.egressId = INVALID := by
                  rw [hval1c]
                  have hwf1 := hwf.1
                  simp [INVALID]
                  omega
                simp [liveEids, hX1, hne] at hm
                rw [← h1eq]
                refine ⟨?_, ?_⟩
                · show sw.nextId ≤ id
                  rw [hm, hval1c]
                · show id < sw2.nextId
                  rw [hm, hval1c, hnn1c]
                  omega
            · intro k hk
              rw [← h1eq]
              show lookupA (updA sw2.hosts (vrf, nh.2) (fun hc2 => (h1, hc2.2))) k = _
              rw [hupd]
              simp [lookupA, hk]
            · intro id hid
              rw [← h1eq]
              show lookupA sw2.egressMap id = lookupA sw.egressMap id
              rcases hdisj with ⟨hinv1, hem1, _⟩ | ⟨hval1, hem1, _⟩
              · rw [hem1]
              · have hne : ¬ h1.egressId = INVALID := by
                  rw [hval1]
                  have := hwf.1
                  simp [INVALID]
                  omega
                rw [hem1]
                have hidne : ¬ id = sw.nextId := by
                  simp [liveEids, hX1, hne] at hid
                  rw [hval1] at hid
                  exact hid
                simp [lookupA, hidne]
            · refine ⟨hlk, ?_, hadd1, ?_⟩
              · rw [← h1eq]
                show lookupA (updA sw2.hosts (vrf, nh.2) (fun hc2 => (h1, hc2.2))) (vrf, nh.2) = _
                rw [hupd]
                simp [lookupA]
              · intro hne
                simp [hX1, hne]
            · rw [← h1eq]
              exact he2
            · rw [← h1eq]
              exact hp2
            · rw [← h1eq]
              exact hnx2
            · rw [← h1eq]
              exact hwf2
          · intro hfa
            have hA : (!orc.failAdd i) = true := by
              rw [hfa i]
              rfl
            obtain ⟨hinv1, _, _⟩ := hAcase hA
            simp [hX1, hinv1]
      · -- success: the member is programmed to CPU and recorded as fresh
        rw [hprog] at hstep0
        have hh2c : sw2.hosts = ((vrf, nh.2), { vrf := vrf, addr := nh.2, egressId := INVALID, added := false, port := 0 }, 1) :: sw.hosts := hh2
        set h1 : BcmHostM := { vrf := vrf, addr := nh.2, egressId := sw.nextId, added := true, port := 0 } with hh1
        have hupd : updA sw2.hosts (vrf, nh.2) (fun hc2 => (h1, hc2.2)) =
            ((vrf, nh.2), h1, 1) :: sw.hosts := by
          rw [hh2c]
          simp [updA, updA_not_mem sw.hosts (vrf, nh.2) _ hcomp]
        set sw3 : Sw := {sw2 with hosts := updA sw2.hosts (vrf, nh.2) (fun hc2 => (h1, hc2.2))} with hsw3
        have hInvA : membersInv sw0 vrf (ds ++ [(nh, MemDone.fresh h1)]) [] sw3 := by
          have hsnoc := membersInv_snoc sw0 vrf ds [] sw nh (MemDone.fresh h1) []
            sw3 hInvB hnh2ds ?_ ?_ ?_ ?_ ?_ ?_ ?_ ?_ ?_
          · simpa using hsnoc
          · simp [liveEids]
          · intro id hm
            simp [liveEids, hh1] at hm
            have hnx2c : sw2.nextId = sw.nextId + 1 := hnx2
            refine ⟨?_, ?_⟩
            · show sw.nextId ≤ id
              rw [hm]
            · show id < sw2.nextId
              rw [hm, hnx2c]
              omega
          · intro k hk
            show lookupA (updA sw2.hosts (vrf, nh.2) (fun hc2 => (h1, hc2.2))) k = _
            rw [hupd]
            simp [lookupA, hk]
          · intro id hid
            simp [liveEids, hh1] at hid
            show lookupA sw2.egressMap id = lookupA sw.egressMap id
            rw [hem2]
            simp [lookupA, hid]
          · refine ⟨hlk, ?_, rfl, ?_⟩
            · show lookupA (updA sw2.hosts (vrf, nh.2) (fun hc2 => (h1, hc2.2))) (vrf, nh.2) = _
              rw [hupd]
              simp [lookupA]
            · show lookupA sw3.egressMap h1.egressId = some (EgressObjM.simple, 1)
              show lookupA sw2.egressMap h1.egressId = some (EgressObjM.simple, 1)
              rw [hem2]
              simp [lookupA, hh1]
          · exact he2
          · exact hp2
          · show sw.nextId ≤ sw2.nextId
            have hnx2c : sw2.nextId = sw.nextId + 1 := hnx2
            omega
          · exact hwf2
        have hndA : (rest.map (fun nh2 => nh2.2) ++
            ((ds ++ [(nh, MemDone.fresh h1)]).map (fun d => d.1.2))).Nodup := by
          rw [List.map_append]
          exact nodup_shift nh.2 _ _ hndc
        have hihr := ih (ds ++ [(nh, MemDone.fresh h1)]) (i + 1) sw3
          (paths ++ [h1.egressId]) hInvA hndA
        have hprogarg : (ds ++ [(nh, MemDone.fresh h1)]).map (fun d => d.1) =
            ds.map (fun d => d.1) ++ [nh] := by simp
        constructor
        · intro sw1 prog1 paths1 heq
          rw [hstep0] at heq
          rw [← hprogarg] at heq
          obtain ⟨dsr2, hp1, hr1, hI1, hpa1⟩ := hihr.1 sw1 prog1 paths1 heq
          refine ⟨(nh, MemDone.fresh h1) :: dsr2, ?_, ?_, ?_, ?_⟩
          · rw [hp1]
            simp
          · simp [hr1]
          · rw [show ds ++ (nh, MemDone.fresh h1) :: dsr2 =
              (ds ++ [(nh, MemDone.fresh h1)]) ++ dsr2 by simp]
            exact hI1
          · rw [hpa1]
            simp [doneEid]
        · intro sw1 prog1 heq
          rw [hstep0] at heq
          rw [← hprogarg] at heq
          obtain ⟨dsr2, X1, hp1, hI1, hX1e⟩ := hihr.2 sw1 prog1 heq
          refine ⟨(nh, MemDone.fresh h1) :: dsr2, X1, ?_, ?_, hX1e⟩
          · rw [hp1]
            simp
          · rw [show ds ++ (nh, MemDone.fresh h1) :: dsr2 =
              (ds ++ [(nh, MemDone.fresh h1)]) ++ dsr2 by simp]
            exact hI1
    · -- pre-existing member: shared, must already be programmed
      obtain ⟨h0, c0⟩ := hc0
      rw [hlk] at hcomp
      have hmem0 := lookupA_mem hlk
      have hadd0 : h0.added = true := hall _ hmem0
      have hc01 : 1 ≤ c0 := hpos _ hmem0
      set swA : Sw := {sw with hosts := updA sw.hosts (vrf, nh.2) (fun vc => (vc.1, vc.2 + 1))} with hswA
      have hstep0 : ecmpLoop vrf orc (nh :: rest) i sw (ds.map (fun d => d.1)) paths =
          ecmpLoop vrf orc rest (i + 1) swA (ds.map (fun d => d.1) ++ [nh]) (paths ++ [h0.egressId]) := by
        simp [ecmpLoop, hnin, incRefOrCreateBcmHost, incRefOrCreateT, hcomp, isProgrammed, hadd0]
      have hInvA : membersInv sw0 vrf (ds ++ [(nh, MemDone.shared h0 c0)]) [] swA := by
        have hsnoc := membersInv_snoc sw0 vrf ds [] sw nh (MemDone.shared h0 c0) []
          swA hInvB hnh2ds ?_ ?_ ?_ ?_ ?_ ?_ ?_ ?_ ?_
        · simpa using hsnoc
        · simp [liveEids]
        · intro id hm
          simp [liveEids] at hm
        · intro k hk
          show lookupA (updA sw.hosts (vrf, nh.2) _) k = _
          exact lookupA_updA_ne _ _ _ _ hk
        · intro id hid
          rfl
        · refine ⟨hlk, hc01, hadd0, ?_⟩
          show lookupA (updA sw.hosts (vrf, nh.2) _) (vrf, nh.2) = _
          rw [lookupA_updA_self, hcomp]
          rfl
        · rfl
        · rfl
        · exact le_refl _
        · exact hwf
      have hndA : (rest.map (fun nh2 => nh2.2) ++
          ((ds ++ [(nh, MemDone.shared h0 c0)]).map (fun d => d.1.2))).Nodup := by
        rw [List.map_append]
        exact nodup_shift nh.2 _ _ hndc
      have hihr := ih (ds ++ [(nh, MemDone.shared h0 c0)]) (i + 1) swA
        (paths ++ [h0.egressId]) hInvA hndA
      have hprogarg : (ds ++ [(nh, MemDone.shared h0 c0)]).map (fun d => d.1) =
          ds.map (fun d => d.1) ++ [nh] := by simp
      constructor
      · intro sw1 prog1 paths1 heq
        rw [hstep0] at heq
        rw [← hprogarg] at heq
        obtain ⟨dsr2, hp1, hr1, hI1, hpa1⟩ := hihr.1 sw1 prog1 paths1 heq
        refine ⟨(nh, MemDone.shared h0 c0) :: dsr2, ?_, ?_, ?_, ?_⟩
        · rw [hp1]
          simp
        · simp [hr1]
        · rw [show ds ++ (nh, MemDone.shared h0 c0) :: dsr2 =
            (ds ++ [(nh, MemDone.shared h0 c0)]) ++ dsr2 by simp]
          exact hI1
        · rw [hpa1]
          simp [doneEid]
      · intro sw1 prog1 heq
        rw [hstep0] at heq
        rw [← hprogarg] at heq
        obtain ⟨dsr2, X1, hp1, hI1, hX1e⟩ := hihr.2 sw1 prog1 heq
        refine ⟨(nh, MemDone.shared h0 c0) :: dsr2, X1, ?_, ?_, hX1e⟩
        · rw [hp1]
          simp
        · rw [show ds ++ (nh, MemDone.shared h0 c0) :: dsr2 =
            (ds ++ [(nh, MemDone.shared h0 c0)]) ++ dsr2 by simp]
          exact hI1

/-- Claim C3 counterexample: constructing an ECMP host over two fresh members
where member 0's hardware host-add fails (after its egress object was
registered) throws and rolls back both member references — the host registry
is restored — yet the orphaned egress object (id 1) remains registered, so
the registries are not exactly as before the constructor ran. -/
theorem ecmp_rollback_leaves_orphan_egress :
    isThrown cexRun = true ∧
    thrownHostAt cexRun (0, aA) = none ∧
    thrownHostAt cexRun (0, aB) = none ∧
    thrownEgressAt cexRun 1 = some (EgressObjM.simple, 1) ∧
    lookupA swE.egressMap 1 = none :=
  ⟨rfl, rfl, rfl, rfl, rfl⟩

/-- Claim C3 (amended): if ECMP-host construction throws, every member
reference already acquired has been released — the host registry, the ECMP
registry and the port index are exactly as before the call — and the egress
registry is also exactly restored provided no member's hardware host-add was
the failing step (a fresh member whose host-add fails after its egress object
was registered leaves that object in the egress registry, because the
never-added host's destructor skips the egress dereference). -/
theorem ecmp_construction_rollback (sw : Sw) (vrf : Nat) (fwd : List (Nat × Addr))
    (orc : Oracles) (sw2 : Sw)
    (hwf : wfSw sw) (hall : hostsAllProgrammed sw) (hpos : countsPositive sw)
    (hnodup : (fwd.map (fun nh => nh.2)).Nodup)
    (hrun : incRefOrCreateBcmEcmpHost sw vrf fwd orc = CRes.thrown sw2) :
    (∀ k, lookupA sw2.hosts k = lookupA sw.hosts k) ∧
    sw2.ecmpHosts = sw.ecmpHosts ∧
    sw2.port2EgressIds = sw.port2EgressIds ∧
    ((∀ j, orc.failAdd j = false) →
      ∀ id, lookupA sw2.egressMap id = lookupA sw.egressMap id) := by
  rcases hlkE : lookupA sw.ecmpHosts (vrf, fwd) with _ | ec
  swap
  · simp [incRefOrCreateBcmEcmpHost, hlkE] at hrun
  cases hnew : bcmEcmpHostNew sw vrf fwd orc with
  | ok e swx => simp [incRefOrCreateBcmEcmpHost, hlkE, hnew] at hrun
  | fatal => simp [incRefOrCreateBcmEcmpHost, hlkE, hnew] at hrun
  | thrown swx =>
    have hsw2 : swx = sw2 := by
      simp [incRefOrCreateBcmEcmpHost, hlkE, hnew] at hrun
      exact hrun
    subst hsw2
    -- analyze the construction itself
    have hfne : ¬ fwd = [] := by
      intro hc
      rw [hc] at hnew
      simp [bcmEcmpHostNew] at hnew
    have hspec := ecmpLoop_spec sw vrf orc hall hpos fwd [] 0 sw []
      (membersInv_nil sw vrf hwf) (by simpa using hnodup)
    cases hloop : ecmpLoop vrf orc fwd 0 sw [] [] with
    | ok swa prog paths =>
      -- loop completed: the throw must come from group-programming failure
      obtain ⟨dsr, hprog, hfwdeq, hInvA, hpaths⟩ :=
        hspec.1 swa prog paths (by simpa using hloop)
      have hInvA2 : membersInv sw vrf dsr [] swa := by simpa using hInvA
      obtain ⟨sw2x, hroll, hh, he, hx, hec, hpo⟩ :=
        rollback_restores sw vrf hwf dsr [] swa hInvA2
      rcases hpaths2 : paths with _ | ⟨p, _ | ⟨q, ptl⟩⟩
      · rw [bcmEcmpHostNew, if_neg hfne, hloop, hpaths2] at hnew
        rcases hg : orc.failGroup with _ | _
        · simp [hg, insertBcmEgress,
            wf_lookup_fresh (hInvA2.2.2.2.2.2.2.2.2.2) (le_refl _)] at hnew
        · have hprog2 : prog = List.map (fun d => d.1) dsr := by simpa using hprog
          rw [hprog2] at hnew
          simp [hg, hroll] at hnew
          rw [← hnew]
          exact ⟨hh, hec, hpo, fun _ id => he id (by simp)⟩
      · rw [bcmEcmpHostNew, if_neg hfne, hloop, hpaths2] at hnew
        simp at hnew
      · rw [bcmEcmpHostNew, if_neg hfne, hloop, hpaths2] at hnew
        rcases hg : orc.failGroup with _ | _
        · simp [hg, insertBcmEgress,
            wf_lookup_fresh (hInvA2.2.2.2.2.2.2.2.2.2) (le_refl _)] at hnew
        · have hprog2 : prog = List.map (fun d => d.1) dsr := by simpa using hprog
          rw [hprog2] at hnew
          simp [hg, hroll] at hnew
          rw [← hnew]
          exact ⟨hh, hec, hpo, fun _ id => he id (by simp)⟩
    | thrownAt swa prog =>
      -- loop threw: rollback across the recorded members
      obtain ⟨dsr, X1, hprog, hInvA, hX1⟩ := hspec.2 swa prog (by simpa using hloop)
      have hInvA2 : membersInv sw vrf dsr X1 swa := by simpa using hInvA
      obtain ⟨sw2x, hroll, hh, he, hx, hec, hpo⟩ :=
        rollback_restores sw vrf hwf dsr X1 swa hInvA2
      rw [bcmEcmpHostNew, if_neg hfne, hloop] at hnew
      have hprog2 : prog = List.map (fun d => d.1) dsr := by simpa using hprog
      rw [hprog2] at hnew
      simp [hroll] at hnew
      rw [← hnew]
      refine ⟨hh, hec, hpo, fun hfa id => ?_⟩
      refine he id ?_
      rw [hX1 hfa]
      simp
    | fatal =>
      rw [bcmEcmpHostNew, if_neg hfne, hloop] at hnew
      cases hnew

/-- Witness for (amended) C3: two fresh members, group programming fails; the
construction throws and every registry, the egress registry included, is
exactly as before. -/
theorem ecmp_construction_rollback_w :
    wfSw swE ∧ (List.map (fun nh => nh.2) [(7, aA), (8, aB)]).Nodup ∧
    (∃ sw2, incRefOrCreateBcmEcmpHost swE 0 [(7, aA), (8, aB)] grpFail = CRes.thrown sw2 ∧
      ((∀ k, lookupA sw2.hosts k = lookupA swE.hosts k) ∧
       sw2.ecmpHosts = swE.ecmpHosts ∧
       sw2.port2EgressIds = swE.port2EgressIds ∧
       ((∀ j, grpFail.failAdd j = false) →
         ∀ id, lookupA sw2.egressMap id = lookupA swE.egressMap id))) :=
  ⟨⟨le_refl 1, by simp [swE]⟩, by decide,
    ⟨_, rfl, ecmp_construction_rollback swE 0 [(7, aA), (8, aB)] grpFail _
      ⟨le_refl 1, by simp [swE]⟩ (by simp [hostsAllProgrammed, swE])
      (by simp [countsPositive, swE]) (by decide) rfl⟩⟩

theorem memberEgress_of_inv (sw0 : Sw) (vrf : Nat) (ds : List ((Nat × Addr) × MemDone))
    (X : List Nat) (sw : Sw) (hInv : membersInv sw0 vrf ds X sw) :
    ∀ d ∈ ds, memberEgressId sw (vrf, d.1.2) = doneEid d.2 := by
  intro d hd
  have hent := hInv.1 d hd
  obtain ⟨nh, k⟩ := d
  cases k with
  | shared h0 c0 => simp [memberEgressId, hent.2.2.2, doneEid]
  | fresh h => simp [memberEgressId, hent.2.1, doneEid]
  | freshAbort h => simp [memberEgressId, hent.2.1, doneEid]

/-- Claim C5: a successfully constructed ECMP host over a single next hop has
no group egress object (its `ecmpEgressId` stays `INVALID`) and exposes the
sole member's egress id; over several next hops it registers a fresh group
egress object programmed with the member egress ids in next-hop order. -/
theorem ecmp_single_vs_multi (sw : Sw) (vrf : Nat) (fwd : List (Nat × Addr))
    (orc : Oracles) (e : EcmpM) (sw1 : Sw)
    (hwf : wfSw sw) (hall : hostsAllProgrammed sw) (hpos : countsPositive sw)
    (hnodup : (fwd.map (fun nh => nh.2)).Nodup)
    (hrun : bcmEcmpHostNew sw vrf fwd orc = CRes.ok e sw1) :
    e.fwd = fwd ∧
    (fwd.length = 1 →
      e.ecmpEgressId = INVALID ∧
      (∀ nh ∈ fwd, e.egressId = memberEgressId sw1 (vrf, nh.2)) ∧
      (∀ id g c, lookupA sw1.egressMap id = some (EgressObjM.ecmp g, c) →
        lookupA sw.egressMap id = some (EgressObjM.ecmp g, c))) ∧
    (1 < fwd.length →
      e.ecmpEgressId ≠ INVALID ∧ e.egressId = e.ecmpEgressId ∧
      lookupA sw1.egressMap e.ecmpEgressId =
        some (EgressObjM.ecmp
          ((fwd.map (fun nh => memberEgressId sw1 (vrf, nh.2))).map (fun p => (p, true))), 1)) := by
  have hfne : ¬ fwd = [] := by
    intro hc
    rw [hc] at hrun
    simp [bcmEcmpHostNew] at hrun
  have hspec := ecmpLoop_spec sw vrf orc hall hpos fwd [] 0 sw []
    (membersInv_nil sw vrf hwf) (by simpa using hnodup)
  cases hloop : ecmpLoop vrf orc fwd 0 sw [] [] with
  | thrownAt swa prog =>
    rw [bcmEcmpHostNew, if_neg hfne, hloop] at hrun
    cases hr : rollbackMembers swa vrf prog with
    | error er => simp [hr] at hrun
    | ok s => simp [hr] at hrun
  | fatal =>
    rw [bcmEcmpHostNew, if_neg hfne, hloop] at hrun
    cases hrun
  | ok swa prog paths =>
    obtain ⟨dsr, hprog, hfwdeq, hInvA, hpaths⟩ :=
      hspec.1 swa prog paths (by simpa using hloop)
    have hInvA2 : membersInv sw vrf dsr [] swa := by simpa using hInvA
    have hprog2 : prog = dsr.map (fun d => d.1) := by simpa using hprog
    have hpaths2 : paths = dsr.map (fun d => doneEid d.2) := by simpa using hpaths
    have hwfa : wfSw swa := hInvA2.2.2.2.2.2.2.2.2.2
    have hmembers := memberEgress_of_inv sw vrf dsr [] swa hInvA2
    have hpathsF : paths = fwd.map (fun nh => memberEgressId swa (vrf, nh.2)) := by
      rw [hpaths2, ← hfwdeq, List.map_map]
      refine (List.map_congr_left ?_).symm
      intro d hd
      exact hmembers d hd
    have hlenF : paths.length = fwd.length := by
      rw [hpathsF, List.length_map]
    rw [bcmEcmpHostNew, if_neg hfne, hloop] at hrun
    cases hpc : paths with
    | nil =>
      rw [hpc] at hpathsF
      exact absurd (List.map_eq_nil_iff.mp hpathsF.symm) hfne
    | cons p ptl =>
      cases hptl : ptl with
      | nil =>
        -- single path: no group object
        rw [hpc, hptl] at hrun
        simp only [] at hrun
        obtain ⟨heq, hseq⟩ := CRes.ok.inj hrun
        have hlen1 : fwd.length = 1 := by
          rw [← hlenF, hpc, hptl]
          rfl
        refine ⟨?_, fun _ => ⟨?_, ?_, ?_⟩, fun hlt => by omega⟩
        · rw [← heq]
          show prog = fwd
          rw [hprog2, hfwdeq]
        · rw [← heq]
        · intro nh hnh
          rw [← heq]
          show p = memberEgressId sw1 (vrf, nh.2)
          rcases hfc : fwd with _ | ⟨nh1, fwdtl⟩
          · rw [hfc] at hnh
            simp at hnh
          · have hftl : fwdtl = [] := by
              rw [hfc] at hlen1
              simpa using hlen1
            rw [hfc, hftl] at hpathsF
            rw [hpc, hptl] at hpathsF
            simp at hpathsF
            rw [hfc, hftl] at hnh
            simp at hnh
            rw [hnh, ← hseq]
            exact hpathsF
        · intro id g c hlook
          rw [← hseq] at hlook
          by_cases hidl : id ∈ liveEids dsr
          · obtain ⟨nh2, h2, hm2, he2⟩ := liveEids_mem dsr id hidl
            have hent := hInvA2.1 _ hm2
            have hent2 : lookupA swa.egressMap h2.egressId = some (EgressObjM.simple, 1) :=
              hent.2.2.2
            rw [he2] at hent2
            rw [hent2] at hlook
            have hinj := Option.some.inj hlook
            have : EgressObjM.simple = EgressObjM.ecmp g := congrArg (fun p => p.1) hinj
            cases this
          · have := hInvA2.2.2.2.2.2.1 id hidl (by simp)
            rw [← this]
            exact hlook
      | cons q qtl =>
        -- several paths: a fresh group egress is created and registered
        rw [hpc, hptl] at hrun
        have hlen2 : 2 ≤ fwd.length := by
          rw [← hlenF, hpc, hptl]
          simp
        rcases hg : orc.failGroup with _ | _
        · -- group programming succeeded (else the outcome is not ok)
          have hfresh : lookupA swa.egressMap swa.nextId = none :=
            wf_lookup_fresh hwfa (le_refl _)
          simp only [hg, Bool.false_eq_true, if_false, insertBcmEgress, hfresh] at hrun
          obtain ⟨heq, hseq⟩ := CRes.ok.inj hrun
          have hgne : ¬ swa.nextId = INVALID := by
            have := hwfa.1
            simp [INVALID]
            omega
          refine ⟨?_, fun h1 => by omega, fun _ => ⟨?_, ?_, ?_⟩⟩
          · rw [← heq]
            show prog = fwd
            rw [hprog2, hfwdeq]
          · rw [← heq]
            exact hgne
          · rw [← heq]
          · rw [← heq]
            show lookupA sw1.egressMap swa.nextId = _
            have hem : sw1.egressMap =
                (swa.nextId, EgressObjM.ecmp ((p :: q :: qtl).map (fun p2 => (p2, true))), 1) :: swa.egressMap := by
              rw [← hseq]
            have hmm : ∀ k, memberEgressId sw1 k = memberEgressId swa k := by
              intro k
              rw [← hseq]
              rfl
            rw [hem]
            rw [show fwd.map (fun nh => memberEgressId sw1 (vrf, nh.2)) =
              fwd.map (fun nh => memberEgressId swa (vrf, nh.2)) from
              List.map_congr_left (fun nh _ => hmm (vrf, nh.2))]
            rw [← hpathsF, hpc, hptl]
            simp [lookupA]
        · -- group programming failed: the outcome cannot be ok
          cases hr : rollbackMembers swa vrf prog with
          | error er => simp [hg, hr] at hrun
          | ok s => simp [hg, hr] at hrun

/-- Witness for C5: two fresh members, no failures; a group object (id 3) is
created and programmed with the two member egress ids in order. -/
theorem ecmp_single_vs_multi_w :
    wfSw swE ∧ (List.map (fun nh => nh.2) [(7, aA), (8, aB)]).Nodup ∧
    (∃ e sw1, bcmEcmpHostNew swE 0 [(7, aA), (8, aB)] noFail = CRes.ok e sw1 ∧
      (e.fwd = [(7, aA), (8, aB)] ∧
        (1 < ([(7, aA), (8, aB)] : List (Nat × Addr)).length →
          e.ecmpEgressId ≠ INVALID ∧ e.egressId = e.ecmpEgressId ∧
          lookupA sw1.egressMap e.ecmpEgressId =
            some (EgressObjM.ecmp
              ((([(7, aA), (8, aB)] : List (Nat × Addr)).map
                (fun nh => memberEgressId sw1 (0, nh.2))).map (fun p => (p, true))), 1)))) :=
  ⟨⟨le_refl 1, by simp [swE]⟩, by decide,
    ⟨_, _, rfl,
      (ecmp_single_vs_multi swE 0 [(7, aA), (8, aB)] noFail _ _
        ⟨le_refl 1, by simp [swE]⟩ (by simp [hostsAllProgrammed, swE])
        (by simp [countsPositive, swE]) (by decide) rfl).1,
      (ecmp_single_vs_multi swE 0 [(7, aA), (8, aB)] noFail _ _
        ⟨le_refl 1, by simp [swE]⟩ (by simp [hostsAllProgrammed, swE])
        (by simp [countsPositive, swE]) (by decide) rfl).2.2⟩⟩

end BcmSpec
